import Mathlib

/-!
Verification of the temporal-rn calendar/date/time/duration engine
(`src/ios/temporal_rn.h`) against its natural-language specification.

The repository ships only the C binding header `temporal_rn.h`; the engine
implementation behind those entry points is not part of the source tree.
Following the specification, the engine semantics are modelled here as pure
Lean functions (the spec describes a purely functional engine over immutable
values).  Facts about the interface surface itself (return-type shapes,
parameter types, which operations exist for which value kind) are transcribed
directly from the header.
-/

deriving instance DecidableEq for Except

namespace Temporal

/-- Error kinds, from `TemporalErrorType` in `temporal_rn.h`
(`TEMPORAL_ERROR_RANGE`, `TEMPORAL_ERROR_TYPE`; `TEMPORAL_ERROR_NONE` is the
success tag of the tagged result and is represented by `Except.ok`). -/
inductive TemporalError where
  | range (msg : String)
  | type (msg : String)
deriving Repr, DecidableEq

/-- Tagged result carrying either a success value or an error kind with a
message, from `TemporalResult` / `CompareResult` in `temporal_rn.h`. -/
abbrev TRes (α : Type) : Type := Except TemporalError α

/-- The maximum safe integer bound (2^53 - 1) used to validate duration
component magnitudes.  Modelled from the spec: magnitudes of duration
components must stay within a safe-integer bound. -/
def maxSafe : Int := 9007199254740991

/-- INT64_MIN, the sentinel for "field not provided" in
`temporal_duration_with` (header: "Pass INT64_MIN for components that should
not be changed"). -/
def int64Min : Int := -9223372036854775808

/-- INT32_MIN, the least value representable in the `int32_t` parameters of
`temporal_plain_date_with` and friends. -/
def int32Min : Int := -2147483648

/-- The ten signed duration components, from `DurationComponents` in
`temporal_rn.h` (the `sign` field of the C struct is derived, see
`Duration.sign`). -/
structure Duration where
  years : Int
  months : Int
  weeks : Int
  days : Int
  hours : Int
  minutes : Int
  seconds : Int
  milliseconds : Int
  microseconds : Int
  nanoseconds : Int
deriving Repr, DecidableEq

/-- The ten components as a list, in the order of `DurationComponents`. -/
def Duration.components (d : Duration) : List Int :=
  [d.years, d.months, d.weeks, d.days, d.hours, d.minutes, d.seconds,
   d.milliseconds, d.microseconds, d.nanoseconds]

/-- Some component is strictly positive. -/
def durAnyPos (d : Duration) : Bool :=
  d.components.any (fun c => decide (0 < c))

/-- Some component is strictly negative. -/
def durAnyNeg (d : Duration) : Bool :=
  d.components.any (fun c => decide (c < 0))

/-- Derived sign of a duration, as exposed in the `sign` field of
`DurationComponents`.  Modelled from the spec: `sign ∈ {-1,0,1}`, with
`sign = 0` iff every component is 0. -/
def Duration.sign (d : Duration) : Int :=
  if durAnyPos d then 1 else if durAnyNeg d then -1 else 0

/-- Mixed-sign check: both a positive and a negative component. -/
def durMixed (d : Duration) : Bool := durAnyPos d && durAnyNeg d

/-- All component magnitudes within the safe-integer bound. -/
def durBounded (d : Duration) : Bool :=
  d.components.all (fun c => decide (-maxSafe ≤ c ∧ c ≤ maxSafe))

/-- Validity of a duration value.  Modelled from the spec: components must
not have mixed signs, and every component magnitude stays within the
safe-integer bound. -/
def durValidB (d : Duration) : Bool := !durMixed d && durBounded d

/-- Validation step shared by every duration constructor.  Modelled from the
spec: `fromComponents` "fails RangeError if components have mixed signs, or
if any balanced time-unit magnitude would exceed the safe-integer bound". -/
def durCheck (d : Duration) : TRes Duration :=
  if durMixed d then .error (.range "mixed-sign duration components")
  else if !durBounded d then .error (.range "duration component out of range")
  else .ok d

/-- `temporal_duration_from_components`, at the value level. -/
def temporal_duration_from_components
    (years months weeks days hours minutes seconds
     milliseconds microseconds nanoseconds : Int) : TRes Duration :=
  durCheck ⟨years, months, weeks, days, hours, minutes, seconds,
            milliseconds, microseconds, nanoseconds⟩

/-- Component-wise negation.  Modelled from the spec: "negate(d): flips sign
of every nonzero component". -/
def durNegate (d : Duration) : Duration :=
  ⟨-d.years, -d.months, -d.weeks, -d.days, -d.hours, -d.minutes, -d.seconds,
   -d.milliseconds, -d.microseconds, -d.nanoseconds⟩

/-- Component-wise absolute value.  Modelled from the spec: "abs(d): forces
sign to +1 (or 0)". -/
def durAbsVal (d : Duration) : Duration :=
  ⟨|d.years|, |d.months|, |d.weeks|, |d.days|, |d.hours|, |d.minutes|,
   |d.seconds|, |d.milliseconds|, |d.microseconds|, |d.nanoseconds|⟩

/-- Component-wise sum. -/
def durSum (a b : Duration) : Duration :=
  ⟨a.years + b.years, a.months + b.months, a.weeks + b.weeks,
   a.days + b.days, a.hours + b.hours, a.minutes + b.minutes,
   a.seconds + b.seconds, a.milliseconds + b.milliseconds,
   a.microseconds + b.microseconds, a.nanoseconds + b.nanoseconds⟩

/-- `temporal_duration_add`, at the value level.  Modelled from the spec:
both inputs are parsed (hence validated), then "component-wise sum, then
re-derive sign and re-validate bounds". -/
def temporal_duration_add (a b : Duration) : TRes Duration :=
  if !durValidB a then .error (.range "invalid duration")
  else if !durValidB b then .error (.range "invalid duration")
  else durCheck (durSum a b)

/-- `temporal_duration_subtract`, at the value level.  Modelled from the
spec: "subtracting is add(a, negate(b))". -/
def temporal_duration_subtract (a b : Duration) : TRes Duration :=
  temporal_duration_add a (durNegate b)

/-- `temporal_duration_negated`, at the value level (the entry point parses
its input, hence validates it, then negates). -/
def temporal_duration_negated (a : Duration) : TRes Duration :=
  (durCheck a).map durNegate

/-- `temporal_duration_abs`, at the value level. -/
def temporal_duration_abs (a : Duration) : TRes Duration :=
  (durCheck a).map durAbsVal

/-- Whether a duration carries a nonzero calendar-unit component
(years, months or weeks). -/
def durHasCalUnit (d : Duration) : Bool :=
  d.years != 0 || d.months != 0 || d.weeks != 0

/-- Total length in nanoseconds of the non-calendar components (days are an
exact 24 hours here, as no calendar unit is involved). -/
def durTotalNs (d : Duration) : Int :=
  ((((((d.days * 24 + d.hours) * 60 + d.minutes) * 60 + d.seconds) * 1000
      + d.milliseconds) * 1000 + d.microseconds) * 1000 + d.nanoseconds)

/-- `temporal_duration_compare`, at the value level.  Modelled from the
spec: exact three-way comparison when neither side carries a nonzero
years/months/weeks component; otherwise TypeError ("ambiguous without
relativeTo"), per the header note "Comparing durations with years, months,
or weeks requires relativeTo (not yet supported)". -/
def temporal_duration_compare (a b : Duration) : TRes Int :=
  if !durValidB a then .error (.range "invalid duration")
  else if !durValidB b then .error (.range "invalid duration")
  else if durHasCalUnit a || durHasCalUnit b then
    .error (.type "comparing durations with years, months, or weeks is ambiguous without relativeTo")
  else .ok (Int.sign (durTotalNs a - durTotalNs b))

/-- Replace a component unless the INT64_MIN sentinel marks it unchanged. -/
def pickField (arg original : Int) : Int :=
  if arg = int64Min then original else arg

/-- `temporal_duration_with`, at the value level.  From the header: "Creates
a new duration by replacing specified components.  Pass INT64_MIN for
components that should not be changed."  The result is re-validated. -/
def temporal_duration_with
    (original : Duration)
    (years months weeks days hours minutes seconds
     milliseconds microseconds nanoseconds : Int) : TRes Duration :=
  if !durValidB original then .error (.range "invalid duration")
  else durCheck
    ⟨pickField years original.years, pickField months original.months,
     pickField weeks original.weeks, pickField days original.days,
     pickField hours original.hours, pickField minutes original.minutes,
     pickField seconds original.seconds,
     pickField milliseconds original.milliseconds,
     pickField microseconds original.microseconds,
     pickField nanoseconds original.nanoseconds⟩

/-! ## Calendar module

Modelled from the spec: ISO-8601 Gregorian rules (leap years, month
lengths), with other calendar identifiers treated as pass-through tags
validated for recognizability only. -/

/-- ISO-8601 leap-year rule. -/
def isoIsLeapYear (y : Int) : Bool :=
  (y % 4 == 0 && y % 100 != 0) || y % 400 == 0

/-- Days in a year under the ISO-8601 calendar. -/
def isoDaysInYear (y : Int) : Int :=
  if isoIsLeapYear y then 366 else 365

/-- Days in a month under the ISO-8601 calendar (month 1..12). -/
def isoDaysInMonth (y m : Int) : Int :=
  if m = 2 then (if isoIsLeapYear y then 29 else 28)
  else if m = 4 ∨ m = 6 ∨ m = 9 ∨ m = 11 then 30
  else 31

/-- Character allowed in a calendar identifier. -/
def isCalChar (c : Char) : Bool := c.isAlphanum || c == '-'

/-- Recognizability check for calendar identifiers.  Modelled from the spec:
calendar identifiers other than iso8601 "are pass-through tags validated for
recognizability only". -/
def calendarIdValid (c : String) : Bool :=
  c.length > 0 && c.data.all isCalChar

/-- A wall-clock date with a calendar tag, from the PlainDate API of
`temporal_rn.h`. -/
structure PlainDate where
  year : Int
  month : Int
  day : Int
  calendar : String
deriving Repr, DecidableEq

/-- Largest supported year magnitude.  Modelled from the spec: the engine
implements "the semantics of a TC39-Temporal-style value model", whose date
range is bounded (years within ±275760). -/
def maxYear : Int := 275760

/-- Validity of a PlainDate: year within the supported range, month in
1..12, day in 1..days-in-month, recognizable calendar identifier. -/
def plainDateValidB (d : PlainDate) : Bool :=
  decide (-maxYear ≤ d.year) && decide (d.year ≤ maxYear) &&
  decide (1 ≤ d.month) && decide (d.month ≤ 12) &&
  decide (1 ≤ d.day) && decide (d.day ≤ isoDaysInMonth d.year d.month) &&
  calendarIdValid d.calendar

/-- Days since the epoch 1970-01-01 of a civil date (standard Gregorian
conversion; all divisors are positive, so `Int` division is floor
division). -/
def daysFromCivil (y m d : Int) : Int :=
  let yy := y - (if m ≤ 2 then 1 else 0)
  let era := yy / 400
  let yoe := yy - era * 400
  let mp := (m + 9) % 12
  let doy := (153 * mp + 2) / 5 + d - 1
  let doe := yoe * 365 + yoe / 4 - yoe / 100 + doy
  era * 146097 + doe - 719468

/-- Civil date of a days-since-epoch count (inverse Gregorian conversion). -/
def civilFromDays (z0 : Int) : Int × Int × Int :=
  let z := z0 + 719468
  let era := z / 146097
  let doe := z - era * 146097
  let yoe := (doe - doe / 1460 + doe / 36524 - doe / 146096) / 365
  let yy := yoe + era * 400
  let doy := doe - (365 * yoe + yoe / 4 - yoe / 100)
  let mp := (5 * doy + 2) / 153
  let d := doy - (153 * mp + 2) / 5 + 1
  let m := mp + (if mp < 10 then 3 else -9)
  (yy + (if m ≤ 2 then 1 else 0), m, d)

/-- Year/month arithmetic with the day clamped to the last valid day of the
resulting month.  Modelled from the spec: arithmetic uses the implicit
"constrain" overflow policy. -/
def addMonthsConstrain (y m d deltaMonths : Int) : Int × Int × Int :=
  let total := y * 12 + (m - 1) + deltaMonths
  let y2 := total / 12
  let m2 := total % 12 + 1
  (y2, m2, min d (isoDaysInMonth y2 m2))

/-- `temporal_plain_date_add`, at the value level.  Modelled from the spec:
add years and months with the day constrained (clamped) to the resulting
month, then shift by weeks and days; time units of the duration contribute
whole days (truncated). -/
def temporal_plain_date_add (date : PlainDate) (dur : Duration) : TRes PlainDate :=
  if !plainDateValidB date then .error (.range "invalid date")
  else if !durValidB dur then .error (.range "invalid duration")
  else
    let (y2, m2, d2) := addMonthsConstrain date.year date.month date.day
      (dur.years * 12 + dur.months)
    let timeDays := Int.tdiv (durTotalNs ⟨0, 0, 0, 0, dur.hours, dur.minutes,
      dur.seconds, dur.milliseconds, dur.microseconds, dur.nanoseconds⟩)
      86400000000000
    let z := daysFromCivil y2 m2 d2 + dur.weeks * 7 + dur.days + timeDays
    let (y3, m3, d3) := civilFromDays z
    .ok ⟨y3, m3, d3, date.calendar⟩

/-- `temporal_plain_date_subtract`, at the value level: adds the negated
duration. -/
def temporal_plain_date_subtract (date : PlainDate) (dur : Duration) : TRes PlainDate :=
  temporal_plain_date_add date (durNegate dur)

/-- `temporal_plain_date_with`, at the value level.  Its C parameters are
`int32_t`, so the "field not provided" sentinel is INT32_MIN (a NULL /
empty calendar identifier marks the calendar unchanged).  Modelled from the
spec: "with" uses the "reject" overflow policy, so an internally
inconsistent result fails with RangeError rather than clamping. -/
def temporal_plain_date_with
    (date : PlainDate) (year month day : Int) (calendar_id : String) : TRes PlainDate :=
  if !plainDateValidB date then .error (.range "invalid date")
  else
    let y := if year = int32Min then date.year else year
    let m := if month = int32Min then date.month else month
    let d := if day = int32Min then date.day else day
    let c := if calendar_id = "" then date.calendar else calendar_id
    let res : PlainDate := ⟨y, m, d, c⟩
    if plainDateValidB res then .ok res
    else .error (.range "invalid date field value")

/-- `temporal_plain_date_until`, at the value level.  Modelled from the
spec: the exact Duration between two dates, populated in days only (date
kinds never populate time-unit components; days is the default largest
unit). -/
def temporal_plain_date_until (one two : PlainDate) : TRes Duration :=
  if !plainDateValidB one then .error (.range "invalid date")
  else if !plainDateValidB two then .error (.range "invalid date")
  else .ok ⟨0, 0, 0, daysFromCivil two.year two.month two.day -
                     daysFromCivil one.year one.month one.day, 0, 0, 0, 0, 0, 0⟩

/-- `temporal_plain_date_since`, at the value level: the duration from `two`
to `one`, i.e. the negation of `until`. -/
def temporal_plain_date_since (one two : PlainDate) : TRes Duration :=
  if !plainDateValidB one then .error (.range "invalid date")
  else if !plainDateValidB two then .error (.range "invalid date")
  else .ok ⟨0, 0, 0, daysFromCivil one.year one.month one.day -
                     daysFromCivil two.year two.month two.day, 0, 0, 0, 0, 0, 0⟩

/-- `temporal_plain_date_compare`, at the value level: lexicographic by
(year, month, day). -/
def temporal_plain_date_compare (a b : PlainDate) : TRes Int :=
  if !plainDateValidB a then .error (.range "invalid date")
  else if !plainDateValidB b then .error (.range "invalid date")
  else .ok (Int.sign (daysFromCivil a.year a.month a.day -
                      daysFromCivil b.year b.month b.day))

/-! ## Instant engine (arithmetic)

Modelled from the spec: an Instant is an exact signed count of nanoseconds
since the epoch. -/

/-- `temporal_instant_add`, at the value level (instant as epoch
nanoseconds).  Modelled from the spec: "fails RangeError if the duration
carries any calendar-unit (year/month/week) component — instants only
support exact time-unit deltas". -/
def temporal_instant_add (i : Int) (dur : Duration) : TRes Int :=
  if !durValidB dur then .error (.range "invalid duration")
  else if durHasCalUnit dur then
    .error (.range "instants do not support year, month, or week durations")
  else .ok (i + durTotalNs dur)

/-- `temporal_instant_subtract`, at the value level. -/
def temporal_instant_subtract (i : Int) (dur : Duration) : TRes Int :=
  if !durValidB dur then .error (.range "invalid duration")
  else if durHasCalUnit dur then
    .error (.range "instants do not support year, month, or week durations")
  else .ok (i - durTotalNs dur)

/-! ## Interface surface

A direct transcription of the entry points declared in
`src/ios/temporal_rn.h`: each function's name, its return shape, and whether
it can fail (per its declared type and documentation). -/

/-- Return shape of a C entry point in `temporal_rn.h`. -/
inductive CRet where
  /-- Returns `TemporalResult` (tagged value-or-error). -/
  | tres
  /-- Returns `CompareResult` (tagged three-way-value-or-error). -/
  | cres
  /-- Returns a raw `char *` (documented as NULL on error). -/
  | rawStr
  /-- Returns `void`, populating an out-struct with an `is_valid` flag. -/
  | outVoid
  /-- Returns `void` with no output (the free functions). -/
  | unit
deriving Repr, DecidableEq

/-- Whether a return shape is a tagged result. -/
def CRet.isTagged : CRet → Bool
  | .tres => true
  | .cres => true
  | _ => false

/-- One entry point of `temporal_rn.h`: name, return shape, and whether the
operation can fail.  An entry is fallible when its return shape carries an
error tag, or when its documentation says it signals failure out of band
(`temporal_instant_now`: "Returns NULL on error").  The batched
`*_get_components` extractors set an `is_valid` flag instead of failing, and
the free functions cannot fail. -/
structure CEntry where
  name : String
  ret : CRet
  fallible : Bool
deriving Repr, DecidableEq

/-- Every entry point declared in `temporal_rn.h`, in declaration order. -/
def temporal_rn_entries : List CEntry :=
  [⟨"temporal_free_result", .unit, false⟩,
   ⟨"temporal_free_compare_result", .unit, false⟩,
   ⟨"temporal_instant_now", .rawStr, true⟩,
   ⟨"temporal_instant_from_string", .tres, true⟩,
   ⟨"temporal_instant_from_epoch_milliseconds", .tres, true⟩,
   ⟨"temporal_instant_from_epoch_nanoseconds", .tres, true⟩,
   ⟨"temporal_instant_epoch_milliseconds", .tres, true⟩,
   ⟨"temporal_instant_epoch_nanoseconds", .tres, true⟩,
   ⟨"temporal_instant_add", .tres, true⟩,
   ⟨"temporal_instant_subtract", .tres, true⟩,
   ⟨"temporal_instant_compare", .cres, true⟩,
   ⟨"temporal_now_plain_date_time_iso", .tres, true⟩,
   ⟨"temporal_now_plain_date_iso", .tres, true⟩,
   ⟨"temporal_now_plain_time_iso", .tres, true⟩,
   ⟨"temporal_plain_time_from_string", .tres, true⟩,
   ⟨"temporal_plain_time_from_components", .tres, true⟩,
   ⟨"temporal_plain_time_get_components", .outVoid, false⟩,
   ⟨"temporal_plain_time_add", .tres, true⟩,
   ⟨"temporal_plain_time_subtract", .tres, true⟩,
   ⟨"temporal_plain_time_compare", .cres, true⟩,
   ⟨"temporal_plain_date_from_string", .tres, true⟩,
   ⟨"temporal_plain_date_from_components", .tres, true⟩,
   ⟨"temporal_plain_date_get_components", .outVoid, false⟩,
   ⟨"temporal_plain_date_get_month_code", .tres, true⟩,
   ⟨"temporal_plain_date_get_calendar", .tres, true⟩,
   ⟨"temporal_plain_date_add", .tres, true⟩,
   ⟨"temporal_plain_date_subtract", .tres, true⟩,
   ⟨"temporal_plain_date_compare", .cres, true⟩,
   ⟨"temporal_plain_date_with", .tres, true⟩,
   ⟨"temporal_plain_date_until", .tres, true⟩,
   ⟨"temporal_plain_date_since", .tres, true⟩,
   ⟨"temporal_plain_date_time_from_string", .tres, true⟩,
   ⟨"temporal_plain_date_time_from_components", .tres, true⟩,
   ⟨"temporal_plain_date_time_get_components", .outVoid, false⟩,
   ⟨"temporal_plain_date_time_get_month_code", .tres, true⟩,
   ⟨"temporal_plain_date_time_get_calendar", .tres, true⟩,
   ⟨"temporal_plain_date_time_add", .tres, true⟩,
   ⟨"temporal_plain_date_time_subtract", .tres, true⟩,
   ⟨"temporal_plain_date_time_compare", .cres, true⟩,
   ⟨"temporal_plain_date_time_with", .tres, true⟩,
   ⟨"temporal_plain_date_time_until", .tres, true⟩,
   ⟨"temporal_plain_date_time_since", .tres, true⟩,
   ⟨"temporal_plain_year_month_from_string", .tres, true⟩,
   ⟨"temporal_plain_year_month_from_components", .tres, true⟩,
   ⟨"temporal_plain_year_month_get_components", .outVoid, false⟩,
   ⟨"temporal_plain_year_month_get_month_code", .tres, true⟩,
   ⟨"temporal_plain_year_month_get_calendar", .tres, true⟩,
   ⟨"temporal_plain_year_month_add", .tres, true⟩,
   ⟨"temporal_plain_year_month_subtract", .tres, true⟩,
   ⟨"temporal_plain_year_month_compare", .cres, true⟩,
   ⟨"temporal_plain_year_month_with", .tres, true⟩,
   ⟨"temporal_plain_year_month_until", .tres, true⟩,
   ⟨"temporal_plain_year_month_since", .tres, true⟩,
   ⟨"temporal_plain_year_month_to_plain_date", .tres, true⟩,
   ⟨"temporal_plain_month_day_from_string", .tres, true⟩,
   ⟨"temporal_plain_month_day_from_components", .tres, true⟩,
   ⟨"temporal_plain_month_day_get_components", .outVoid, false⟩,
   ⟨"temporal_plain_month_day_get_month_code", .tres, true⟩,
   ⟨"temporal_plain_month_day_get_calendar", .tres, true⟩,
   ⟨"temporal_plain_month_day_to_plain_date", .tres, true⟩,
   ⟨"temporal_calendar_from", .tres, true⟩,
   ⟨"temporal_calendar_id", .tres, true⟩,
   ⟨"temporal_free_string", .unit, false⟩,
   ⟨"temporal_duration_from_string", .tres, true⟩,
   ⟨"temporal_duration_from_components", .tres, true⟩,
   ⟨"temporal_duration_get_components", .outVoid, false⟩,
   ⟨"temporal_duration_add", .tres, true⟩,
   ⟨"temporal_duration_subtract", .tres, true⟩,
   ⟨"temporal_duration_negated", .tres, true⟩,
   ⟨"temporal_duration_abs", .tres, true⟩,
   ⟨"temporal_duration_compare", .cres, true⟩,
   ⟨"temporal_duration_with", .tres, true⟩]

/-- C integer parameter types occurring in the header. -/
inductive CIntType where
  | i32
  | i64
deriving Repr, DecidableEq

/-- Least value representable in a C integer type. -/
def CIntType.minVal : CIntType → Int
  | .i32 => -2147483648
  | .i64 => -9223372036854775808

/-- Greatest value representable in a C integer type. -/
def CIntType.maxVal : CIntType → Int
  | .i32 => 2147483647
  | .i64 => 9223372036854775807

/-- A value is representable in a C integer type when it lies between the
type's least and greatest values. -/
def CIntType.representable (t : CIntType) (v : Int) : Prop :=
  t.minVal ≤ v ∧ v ≤ t.maxVal

instance (t : CIntType) (v : Int) : Decidable (t.representable v) := by
  unfold CIntType.representable
  infer_instance

/-- The C type of the component-field parameters of each component-
replacement (`with`) entry point, transcribed from `temporal_rn.h`:
`temporal_duration_with` takes `int64_t` fields, while the PlainDate /
PlainDateTime / PlainYearMonth `with` operations take `int32_t` fields. -/
def withFieldParamTypes : List (String × CIntType) :=
  [("temporal_duration_with", .i64),
   ("temporal_plain_date_with", .i32),
   ("temporal_plain_date_time_with", .i32),
   ("temporal_plain_year_month_with", .i32)]

/-- Whether the header declares the entry point `<stem><op>` (e.g.
`temporal_plain_date_` and `add`). -/
def engineHasOp (stem op : String) : Bool :=
  temporal_rn_entries.any (fun e => e.name == stem ++ op)

/-! ## ISO 8601 lexer/parser and formatter

Modelled from the spec: each value kind is parsed from the ISO 8601
extended-format grammar the spec gives per kind, and rendered back to the
unique normalized (canonical) string form.  Strings are processed as their
underlying character lists. -/

/-- Decimal digit character of a digit value (values ≥ 9 map to '9'; the
formatter only applies it to digits). -/
def digitChar (n : Nat) : Char :=
  match n with
  | 0 => '0' | 1 => '1' | 2 => '2' | 3 => '3' | 4 => '4'
  | 5 => '5' | 6 => '6' | 7 => '7' | 8 => '8' | _ => '9'

/-- Decimal digit test. -/
def isDigitChar (c : Char) : Bool := '0' ≤ c && c ≤ '9'

/-- Value of a decimal digit character. -/
def digitVal (c : Char) : Nat := c.toNat - '0'.toNat

/-- Zero-padded fixed-width decimal rendering (most significant first). -/
def padNat : Nat → Nat → List Char
  | 0, _ => []
  | w + 1, n => padNat w (n / 10) ++ [digitChar (n % 10)]

/-- Minimal-width decimal rendering of a natural number. -/
def natDigits (n : Nat) : List Char :=
  if n < 10 then [digitChar n]
  else natDigits (n / 10) ++ [digitChar (n % 10)]
  termination_by n
  decreasing_by omega

/-- Numeric value of a list of decimal digit characters. -/
def natValOfDigits (ds : List Char) : Nat :=
  ds.foldl (fun a c => a * 10 + digitVal c) 0

/-- Reads exactly `w` decimal digits. -/
def parseFixedNat (w : Nat) (cs : List Char) : Option (Nat × List Char) :=
  let pre := cs.take w
  if pre.length = w ∧ pre.all isDigitChar then
    some (natValOfDigits pre, cs.drop w)
  else none

/-- Consumes one expected character. -/
def expectChar (c : Char) : List Char → Option (List Char)
  | [] => none
  | x :: rest => if x = c then some rest else none

/-- Reads an ISO 8601 year: four digits, or a sign followed by six digits
(expanded-year form). -/
def parseYear (cs : List Char) : Option (Int × List Char) :=
  match cs with
  | [] => none
  | c :: rest =>
    if c = '+' then (parseFixedNat 6 rest).map (fun p => ((p.1 : Int), p.2))
    else if c = '-' then (parseFixedNat 6 rest).map (fun p => (-(p.1 : Int), p.2))
    else (parseFixedNat 4 (c :: rest)).map (fun p => ((p.1 : Int), p.2))

/-- Canonical rendering of a year: four zero-padded digits, or an explicit
sign and six digits outside 0000..9999. -/
def yearChars (y : Int) : List Char :=
  if 0 ≤ y ∧ y ≤ 9999 then padNat 4 y.toNat
  else if y < 0 then '-' :: padNat 6 (-y).toNat
  else '+' :: padNat 6 y.toNat

/-- Canonical calendar annotation: omitted for the default iso8601
calendar, `[u-ca=<id>]` otherwise. -/
def calAnnChars (c : String) : List Char :=
  if c = "iso8601" then []
  else ['[', 'u', '-', 'c', 'a', '='] ++ c.data ++ [']']

/-- Reads an optional trailing calendar annotation and requires the end of
input; an absent annotation means the default iso8601 calendar. -/
def parseCalEnd (cs : List Char) : Option String :=
  match cs with
  | [] => some "iso8601"
  | c :: rest =>
    if c = '[' then
      match rest with
      | 'u' :: '-' :: 'c' :: 'a' :: '=' :: rest2 =>
        let tok := rest2.takeWhile isCalChar
        let rest3 := rest2.dropWhile isCalChar
        if tok = [] then none
        else
          match rest3 with
          | [']'] => some (String.mk tok)
          | _ => none
      | _ => none
    else none

/-- Reads the date body `year-MM-DD`. -/
def parseDateChars (cs : List Char) : Option (Int × Nat × Nat × List Char) :=
  (parseYear cs).bind fun p1 =>
  (expectChar '-' p1.2).bind fun r2 =>
  (parseFixedNat 2 r2).bind fun p2 =>
  (expectChar '-' p2.2).bind fun r4 =>
  (parseFixedNat 2 r4).map fun p3 => (p1.1, p2.1, p3.1, p3.2)

/-- Grammar phase of date parsing: date body plus optional calendar
annotation. -/
def parseDateRaw (cs : List Char) : Option PlainDate :=
  (parseDateChars cs).bind fun p =>
  (parseCalEnd p.2.2.2).map fun cal => ⟨p.1, (p.2.1 : Int), (p.2.2.1 : Int), cal⟩

/-- `temporal_plain_date_from_string`, at the value level: parse
`year-MM-DD` with an optional calendar annotation, then validate
(TypeError on malformed grammar, RangeError on out-of-range fields). -/
def temporal_plain_date_from_string (s : String) : TRes PlainDate :=
  match parseDateRaw s.data with
  | none => .error (.type "invalid ISO 8601 date string")
  | some date =>
    if plainDateValidB date then .ok date
    else .error (.range "date field value out of range")

/-- Canonical character rendering of a PlainDate. -/
def formatDateChars (d : PlainDate) : List Char :=
  yearChars d.year ++
    '-' :: (padNat 2 d.month.toNat ++ '-' :: (padNat 2 d.day.toNat ++ calAnnChars d.calendar))

/-- The canonical ISO 8601 string of a PlainDate, as returned by the
PlainDate entry points. -/
def formatPlainDate (d : PlainDate) : String := String.mk (formatDateChars d)

/-- `temporal_plain_date_from_components`, at the value level. -/
def temporal_plain_date_from_components
    (year month day : Int) (calendar_id : String) : TRes PlainDate :=
  let d : PlainDate := ⟨year, month, day, calendar_id⟩
  if plainDateValidB d then .ok d else .error (.range "invalid date components")

/-- A wall-clock time, from the PlainTime API of `temporal_rn.h`
(`PlainTimeComponents`). -/
structure PlainTime where
  hour : Nat
  minute : Nat
  second : Nat
  millisecond : Nat
  microsecond : Nat
  nanosecond : Nat
deriving Repr, DecidableEq

/-- Validity of a PlainTime (hour 0-23, minute/second 0-59, sub-second
fields 0-999; leap seconds are rejected as out of range). -/
def plainTimeValidB (t : PlainTime) : Bool :=
  decide (t.hour ≤ 23) && decide (t.minute ≤ 59) && decide (t.second ≤ 59) &&
  decide (t.millisecond ≤ 999) && decide (t.microsecond ≤ 999) &&
  decide (t.nanosecond ≤ 999)

/-- Total sub-second nanoseconds of a PlainTime. -/
def subNs (t : PlainTime) : Nat :=
  t.millisecond * 1000000 + t.microsecond * 1000 + t.nanosecond

/-- Reads an optional fractional part after the seconds: a dot and at least
one digit; up to nanosecond precision, extra digits truncated.  Returns the
sub-second value in nanoseconds. -/
def parseFracNs (cs : List Char) : Option (Nat × List Char) :=
  match cs with
  | [] => some (0, [])
  | c :: rest =>
    if c = '.' then
      let ds := rest.takeWhile isDigitChar
      let rest2 := rest.dropWhile isDigitChar
      if ds = [] then none
      else some (natValOfDigits (ds.take 9 ++ List.replicate (9 - ds.length) '0'), rest2)
    else some (0, cs)

/-- Sub-second nanoseconds split into (millisecond, microsecond,
nanosecond) components. -/
def splitSubNs (n : Nat) : Nat × Nat × Nat :=
  (n / 1000000, n / 1000 % 1000, n % 1000)

/-- Reads the time body `HH:MM:SS[.fraction]`. -/
def parseTimeChars (cs : List Char) : Option (PlainTime × List Char) :=
  (parseFixedNat 2 cs).bind fun ph =>
  (expectChar ':' ph.2).bind fun r2 =>
  (parseFixedNat 2 r2).bind fun pmi =>
  (expectChar ':' pmi.2).bind fun r4 =>
  (parseFixedNat 2 r4).bind fun ps =>
  (parseFracNs ps.2).map fun pf =>
    (⟨ph.1, pmi.1, ps.1, (splitSubNs pf.1).1, (splitSubNs pf.1).2.1,
      (splitSubNs pf.1).2.2⟩, pf.2)

/-- Canonical fraction digits for a nonzero sub-second value: the shortest
of 3, 6 or 9 digits that renders it exactly. -/
def fracDigits (f : Nat) : List Char :=
  if f % 1000000 = 0 then padNat 3 (f / 1000000)
  else if f % 1000 = 0 then padNat 6 (f / 1000)
  else padNat 9 f

/-- Canonical fractional part: empty when the sub-second value is zero. -/
def fracChars (f : Nat) : List Char :=
  if f = 0 then [] else '.' :: fracDigits f

/-- Canonical character rendering of a PlainTime. -/
def formatTimeChars (t : PlainTime) : List Char :=
  padNat 2 t.hour ++
    ':' :: (padNat 2 t.minute ++ ':' :: (padNat 2 t.second ++ fracChars (subNs t)))

/-- Grammar phase of time parsing: time body with nothing following. -/
def parseTimeRaw (cs : List Char) : Option PlainTime :=
  (parseTimeChars cs).bind fun p => if p.2 = [] then some p.1 else none

/-- `temporal_plain_time_from_string`, at the value level. -/
def temporal_plain_time_from_string (s : String) : TRes PlainTime :=
  match parseTimeRaw s.data with
  | none => .error (.type "invalid ISO 8601 time string")
  | some t =>
    if plainTimeValidB t then .ok t
    else .error (.range "time field value out of range")

/-- The canonical ISO 8601 string of a PlainTime. -/
def formatPlainTime (t : PlainTime) : String := String.mk (formatTimeChars t)

/-- A wall-clock date and time with a calendar tag, from the PlainDateTime
API of `temporal_rn.h`. -/
structure PlainDateTime where
  year : Int
  month : Int
  day : Int
  hour : Nat
  minute : Nat
  second : Nat
  millisecond : Nat
  microsecond : Nat
  nanosecond : Nat
  calendar : String
deriving Repr, DecidableEq

/-- The date part of a PlainDateTime. -/
def PlainDateTime.datePart (dt : PlainDateTime) : PlainDate :=
  ⟨dt.year, dt.month, dt.day, dt.calendar⟩

/-- The time part of a PlainDateTime. -/
def PlainDateTime.timePart (dt : PlainDateTime) : PlainTime :=
  ⟨dt.hour, dt.minute, dt.second, dt.millisecond, dt.microsecond, dt.nanosecond⟩

/-- Validity of a PlainDateTime. -/
def plainDateTimeValidB (dt : PlainDateTime) : Bool :=
  plainDateValidB dt.datePart && plainTimeValidB dt.timePart

/-- Consumes the date-time separator: `T` or a space. -/
def expectSep : List Char → Option (List Char)
  | [] => none
  | c :: rest => if c = 'T' ∨ c = ' ' then some rest else none

/-- Reads the date-time body: date body, `T` (or space) separator, time
body. -/
def parseDateTimeChars (cs : List Char) :
    Option (Int × Nat × Nat × PlainTime × List Char) :=
  (parseDateChars cs).bind fun pd =>
  (expectSep pd.2.2.2).bind fun r2 =>
  (parseTimeChars r2).map fun pt =>
    (pd.1, pd.2.1, pd.2.2.1, pt.1, pt.2)

/-- Grammar phase of date-time parsing: date-time body plus optional
calendar annotation. -/
def parseDateTimeRaw (cs : List Char) : Option PlainDateTime :=
  (parseDateTimeChars cs).bind fun p =>
  (parseCalEnd p.2.2.2.2).map fun cal =>
    ⟨p.1, (p.2.1 : Int), (p.2.2.1 : Int), p.2.2.2.1.hour, p.2.2.2.1.minute,
     p.2.2.2.1.second, p.2.2.2.1.millisecond, p.2.2.2.1.microsecond,
     p.2.2.2.1.nanosecond, cal⟩

/-- `temporal_plain_date_time_from_string`, at the value level. -/
def temporal_plain_date_time_from_string (s : String) : TRes PlainDateTime :=
  match parseDateTimeRaw s.data with
  | none => .error (.type "invalid ISO 8601 date-time string")
  | some dt =>
    if plainDateTimeValidB dt then .ok dt
    else .error (.range "date-time field value out of range")

/-- Canonical character rendering of a PlainDateTime. -/
def formatDateTimeChars (dt : PlainDateTime) : List Char :=
  yearChars dt.year ++
    '-' :: (padNat 2 dt.month.toNat ++ '-' :: (padNat 2 dt.day.toNat ++
      'T' :: (formatTimeChars dt.timePart ++ calAnnChars dt.calendar)))

/-- The canonical ISO 8601 string of a PlainDateTime. -/
def formatPlainDateTime (dt : PlainDateTime) : String :=
  String.mk (formatDateTimeChars dt)

/-- A year-month with a calendar tag, from the PlainYearMonth API of
`temporal_rn.h` (the reference day is disambiguation only and not part of
the value's identity). -/
structure PlainYearMonth where
  year : Int
  month : Int
  calendar : String
deriving Repr, DecidableEq

/-- Validity of a PlainYearMonth. -/
def plainYearMonthValidB (ym : PlainYearMonth) : Bool :=
  decide (-maxYear ≤ ym.year) && decide (ym.year ≤ maxYear) &&
  decide (1 ≤ ym.month) && decide (ym.month ≤ 12) &&
  calendarIdValid ym.calendar

/-- Grammar phase of year-month parsing: `year-MM` plus optional calendar
annotation. -/
def parseYearMonthRaw (cs : List Char) : Option PlainYearMonth :=
  (parseYear cs).bind fun p1 =>
  (expectChar '-' p1.2).bind fun r2 =>
  (parseFixedNat 2 r2).bind fun p2 =>
  (parseCalEnd p2.2).map fun cal => ⟨p1.1, (p2.1 : Int), cal⟩

/-- `temporal_plain_year_month_from_string`, at the value level: parse
`year-MM` with an optional calendar annotation. -/
def temporal_plain_year_month_from_string (s : String) : TRes PlainYearMonth :=
  match parseYearMonthRaw s.data with
  | none => .error (.type "invalid ISO 8601 year-month string")
  | some ym =>
    if plainYearMonthValidB ym then .ok ym
    else .error (.range "year-month field value out of range")

/-- Canonical character rendering of a PlainYearMonth. -/
def formatYearMonthChars (ym : PlainYearMonth) : List Char :=
  yearChars ym.year ++ '-' :: (padNat 2 ym.month.toNat ++ calAnnChars ym.calendar)

/-- The canonical ISO 8601 string of a PlainYearMonth. -/
def formatPlainYearMonth (ym : PlainYearMonth) : String :=
  String.mk (formatYearMonthChars ym)

/-- A month-day with a calendar tag, from the PlainMonthDay API of
`temporal_rn.h` (the reference year is disambiguation only). -/
structure PlainMonthDay where
  month : Int
  day : Int
  calendar : String
deriving Repr, DecidableEq

/-- Validity of a PlainMonthDay: the day is checked against a leap
reference year, so 02-29 is a valid month-day. -/
def plainMonthDayValidB (md : PlainMonthDay) : Bool :=
  decide (1 ≤ md.month) && decide (md.month ≤ 12) &&
  decide (1 ≤ md.day) && decide (md.day ≤ isoDaysInMonth 1972 md.month) &&
  calendarIdValid md.calendar

/-- Grammar phase of month-day parsing: `MM-DD` plus optional calendar
annotation. -/
def parseMonthDayRaw (cs : List Char) : Option PlainMonthDay :=
  (parseFixedNat 2 cs).bind fun p1 =>
  (expectChar '-' p1.2).bind fun r2 =>
  (parseFixedNat 2 r2).bind fun p2 =>
  (parseCalEnd p2.2).map fun cal => ⟨(p1.1 : Int), (p2.1 : Int), cal⟩

/-- `temporal_plain_month_day_from_string`, at the value level: parse
`MM-DD` with an optional calendar annotation. -/
def temporal_plain_month_day_from_string (s : String) : TRes PlainMonthDay :=
  match parseMonthDayRaw s.data with
  | none => .error (.type "invalid ISO 8601 month-day string")
  | some md =>
    if plainMonthDayValidB md then .ok md
    else .error (.range "month-day field value out of range")

/-- Canonical character rendering of a PlainMonthDay. -/
def formatMonthDayChars (md : PlainMonthDay) : List Char :=
  padNat 2 md.month.toNat ++ '-' :: (padNat 2 md.day.toNat ++ calAnnChars md.calendar)

/-- The canonical ISO 8601 string of a PlainMonthDay. -/
def formatPlainMonthDay (md : PlainMonthDay) : String :=
  String.mk (formatMonthDayChars md)

/-- An Instant at the string boundary: its normalized UTC wall-clock
reading.  Modelled from the spec: an Instant is an exact point on the
timeline; its canonical string is the UTC date-time with a `Z` suffix and
at least millisecond precision (e.g. "1970-01-01T00:00:00.000Z"). -/
structure InstantFields where
  year : Int
  month : Int
  day : Int
  hour : Nat
  minute : Nat
  second : Nat
  millisecond : Nat
  microsecond : Nat
  nanosecond : Nat
deriving Repr, DecidableEq

/-- The time part of an instant's fields. -/
def InstantFields.timePart (i : InstantFields) : PlainTime :=
  ⟨i.hour, i.minute, i.second, i.millisecond, i.microsecond, i.nanosecond⟩

/-- Validity of an instant's fields. -/
def instantFieldsValidB (i : InstantFields) : Bool :=
  plainDateValidB ⟨i.year, i.month, i.day, "iso8601"⟩ && plainTimeValidB i.timePart

/-- Grammar phase of instant parsing: a date-time body with a mandatory
UTC suffix. -/
def parseInstantRaw (cs : List Char) : Option InstantFields :=
  (parseDateTimeChars cs).bind fun p =>
  if p.2.2.2.2 = ['Z'] ∨ p.2.2.2.2 = ['z'] then
    some ⟨p.1, (p.2.1 : Int), (p.2.2.1 : Int), p.2.2.2.1.hour, p.2.2.2.1.minute,
      p.2.2.2.1.second, p.2.2.2.1.millisecond, p.2.2.2.1.microsecond,
      p.2.2.2.1.nanosecond⟩
  else none

/-- `temporal_instant_from_string`, at the value level: a date-time body
with a mandatory UTC suffix. -/
def temporal_instant_from_string (s : String) : TRes InstantFields :=
  match parseInstantRaw s.data with
  | none => .error (.type "invalid ISO 8601 instant string")
  | some i =>
    if instantFieldsValidB i then .ok i
    else .error (.range "instant field value out of range")

/-- Canonical fractional part of an instant: always at least millisecond
precision (e.g. ".000"). -/
def fracCharsInstant (f : Nat) : List Char := '.' :: fracDigits f

/-- Canonical character rendering of an Instant. -/
def formatInstantChars (i : InstantFields) : List Char :=
  yearChars i.year ++
    '-' :: (padNat 2 i.month.toNat ++ '-' :: (padNat 2 i.day.toNat ++
      'T' :: (padNat 2 i.hour ++ ':' :: (padNat 2 i.minute ++
        ':' :: (padNat 2 i.second ++ fracCharsInstant (subNs i.timePart) ++ ['Z'])))))

/-- The canonical ISO 8601 string of an Instant. -/
def formatInstant (i : InstantFields) : String := String.mk (formatInstantChars i)

/-! ### Duration strings -/

/-- Reads one optional `<digits><unit>` duration segment; when the digits
are not followed by the expected unit letter, nothing is consumed. -/
def parseOptUnit (u : Char) (cs : List Char) : Option Nat × List Char :=
  let ds := cs.takeWhile isDigitChar
  if ds = [] then (none, cs)
  else
    match cs.dropWhile isDigitChar with
    | [] => (none, cs)
    | c :: rest => if c = u then (some (natValOfDigits ds), rest) else (none, cs)

/-- Reads a sequence of optional duration segments, one per unit letter, in
order. -/
def parseSegs : List Char → List Char → List (Option Nat) × List Char
  | [], cs => ([], cs)
  | u :: us, cs =>
    let p := parseOptUnit u cs
    let q := parseSegs us p.2
    (p.1 :: q.1, q.2)

/-- Reads the optional seconds segment `<digits>[.fraction]S`; returns
(whole seconds, sub-second nanoseconds) or `none` for the pair when the
segment is absent. -/
def parseSecSeg (cs : List Char) : Option (Option (Nat × Nat) × List Char) :=
  let ds := cs.takeWhile isDigitChar
  if ds = [] then some (none, cs)
  else
    match parseFracNs (cs.dropWhile isDigitChar) with
    | none => none
    | some (f, r2) =>
      match r2 with
      | [] => none
      | c :: rest =>
        if c = 'S' then some (some (natValOfDigits ds, f), rest) else none

/-- Signed component from an optionally-present magnitude. -/
def sgnVal (sgn : Int) (o : Option Nat) : Int := sgn * (o.getD 0 : Int)

/-- Reads an optional leading sign of a duration string. -/
def parseSign (cs : List Char) : Int × List Char :=
  match cs with
  | c :: rest =>
    if c = '-' then (-1, rest) else if c = '+' then (1, rest) else (1, c :: rest)
  | [] => (1, [])

/-- Parses an ISO 8601 duration string
`[sign]P[nY][nM][nW][nD][T[nH][nM][n[.f]S]]` into a validated Duration.
Modelled from the spec: a sign prefix applies to every component, a
fraction is allowed on the seconds only, at least one unit is required,
and the balanced components are validated against the safe-integer
bound. -/
def parseDurationBody (sgn : Int) (cs1 : List Char) : Option Duration :=
  match parseSegs ['Y', 'M', 'W', 'D'] cs1 with
  | ([oy, omo, ow, od], r1) =>
    let dateSeen := oy.isSome ∨ omo.isSome ∨ ow.isSome ∨ od.isSome
    match r1 with
    | [] =>
      if dateSeen then
        some ⟨sgnVal sgn oy, sgnVal sgn omo, sgnVal sgn ow,
          sgnVal sgn od, 0, 0, 0, 0, 0, 0⟩
      else none
    | t :: r2 =>
      if t = 'T' then
        match parseSegs ['H', 'M'] r2 with
        | ([oh, omi], r3) =>
          match parseSecSeg r3 with
          | none => none
          | some (osec, r4) =>
            if r4 = [] ∧ (oh.isSome ∨ omi.isSome ∨ osec.isSome) then
              let sec := (osec.map Prod.fst).getD 0
              let f := (osec.map Prod.snd).getD 0
              let (ms, us, ns) := splitSubNs f
              some ⟨sgnVal sgn oy, sgnVal sgn omo, sgnVal sgn ow,
                sgnVal sgn od, sgnVal sgn oh, sgnVal sgn omi,
                sgn * (sec : Int), sgn * (ms : Int), sgn * (us : Int),
                sgn * (ns : Int)⟩
            else none
        | _ => none
      else none
  | _ => none

def parseDurationRaw (cs0 : List Char) : Option Duration :=
  match parseSign cs0 with
  | (sgn, rest0) =>
  match rest0 with
  | [] => none
  | c :: cs1 => if c = 'P' then parseDurationBody sgn cs1 else none

/-- Validated duration parsing: grammar failures are TypeErrors, and the
parsed components go through `durCheck` (RangeError on violation). -/
def parseDurationChars (cs0 : List Char) : TRes Duration :=
  match parseDurationRaw cs0 with
  | none => .error (.type "invalid ISO 8601 duration string")
  | some d => durCheck d

/-- `temporal_duration_from_string`, at the value level. -/
def temporal_duration_from_string (s : String) : TRes Duration :=
  parseDurationChars s.data

/-- One `<digits><unit>` duration segment, omitted when the magnitude is
zero. -/
def durUnitChars (n : Nat) (u : Char) : List Char :=
  if n = 0 then [] else natDigits n ++ [u]

/-- Total sub-second magnitude of a duration, in nanoseconds. -/
def durSubNsAbs (d : Duration) : Nat :=
  d.milliseconds.natAbs * 1000000 + d.microseconds.natAbs * 1000 +
    d.nanoseconds.natAbs

/-- Whether the canonical rendering includes a seconds segment: nonzero
seconds or sub-seconds, or the all-zero duration (rendered "PT0S"). -/
def durSecNeeded (d : Duration) : Bool :=
  d.seconds.natAbs != 0 || durSubNsAbs d != 0 ||
    (d.years.natAbs == 0 && d.months.natAbs == 0 && d.weeks.natAbs == 0 &&
     d.days.natAbs == 0 && d.hours.natAbs == 0 && d.minutes.natAbs == 0)

/-- The seconds segment of the canonical rendering. -/
def durSecChars (d : Duration) : List Char :=
  if durSecNeeded d then
    natDigits d.seconds.natAbs ++ fracChars (durSubNsAbs d) ++ ['S']
  else []

/-- The time part (after `T`) of the canonical rendering. -/
def durTimeChars (d : Duration) : List Char :=
  durUnitChars d.hours.natAbs 'H' ++ durUnitChars d.minutes.natAbs 'M' ++
    durSecChars d

/-- The body (after the sign and `P`) of the canonical rendering. -/
def formatDurationBodyChars (d : Duration) : List Char :=
  durUnitChars d.years.natAbs 'Y' ++ durUnitChars d.months.natAbs 'M' ++
    durUnitChars d.weeks.natAbs 'W' ++ durUnitChars d.days.natAbs 'D' ++
    (if durTimeChars d = [] then [] else 'T' :: durTimeChars d)

def formatDurationChars (d : Duration) : List Char :=
  (if d.sign < 0 then ['-'] else []) ++ 'P' :: formatDurationBodyChars d

/-- The canonical ISO 8601 string of a Duration, as returned by the
Duration entry points. -/
def formatDuration (d : Duration) : String := String.mk (formatDurationChars d)

/-- Rendering of a list of (unit, magnitude) duration segments, zero
magnitudes omitted — the shape the duration formatter emits per part. -/
def renderSegs : List (Char × Nat) → List Char
  | [] => []
  | (u, n) :: tl => durUnitChars n u ++ renderSegs tl

/-! ### Differences for the remaining kinds -/

/-- Nanoseconds of a time of day. -/
def todNs (t : PlainTime) : Int :=
  (((t.hour * 3600 + t.minute * 60 + t.second) * 1000000000 + subNs t : Nat) : Int)

/-- An exact nanosecond difference broken down into sign-consistent day and
time-unit components, largest to smallest. -/
def nsBreakdown (delta : Int) : Duration :=
  let s : Int := Int.sign delta
  let a : Nat := delta.natAbs
  ⟨0, 0, 0,
   s * ((a / 86400000000000 : Nat) : Int),
   s * ((a % 86400000000000 / 3600000000000 : Nat) : Int),
   s * ((a % 3600000000000 / 60000000000 : Nat) : Int),
   s * ((a % 60000000000 / 1000000000 : Nat) : Int),
   s * ((a % 1000000000 / 1000000 : Nat) : Int),
   s * ((a % 1000000 / 1000 : Nat) : Int),
   s * ((a % 1000 : Nat) : Int)⟩

/-- Exact nanosecond span from date-time `a` to date-time `b`. -/
def dtDiffNs (a b : PlainDateTime) : Int :=
  (daysFromCivil b.year b.month b.day - daysFromCivil a.year a.month a.day) *
      86400000000000 + (todNs b.timePart - todNs a.timePart)

/-- `temporal_plain_date_time_until`, at the value level: the exact
Duration between two date-times, in days and time units. -/
def temporal_plain_date_time_until (a b : PlainDateTime) : TRes Duration :=
  if !plainDateTimeValidB a then .error (.range "invalid date-time")
  else if !plainDateTimeValidB b then .error (.range "invalid date-time")
  else .ok (nsBreakdown (dtDiffNs a b))

/-- `temporal_plain_date_time_since`, at the value level: the span from `b`
to `a`. -/
def temporal_plain_date_time_since (a b : PlainDateTime) : TRes Duration :=
  if !plainDateTimeValidB a then .error (.range "invalid date-time")
  else if !plainDateTimeValidB b then .error (.range "invalid date-time")
  else .ok (nsBreakdown (dtDiffNs b a))

/-- Signed month span from year-month `a` to year-month `b`. -/
def ymDiffMonths (a b : PlainYearMonth) : Int :=
  (b.year * 12 + b.month) - (a.year * 12 + a.month)

/-- A month span broken down into sign-consistent years and months. -/
def monthsBreakdown (delta : Int) : Duration :=
  let s : Int := Int.sign delta
  let a : Nat := delta.natAbs
  ⟨s * ((a / 12 : Nat) : Int), s * ((a % 12 : Nat) : Int), 0, 0, 0, 0, 0, 0, 0, 0⟩

/-- `temporal_plain_year_month_until`, at the value level. -/
def temporal_plain_year_month_until (a b : PlainYearMonth) : TRes Duration :=
  if !plainYearMonthValidB a then .error (.range "invalid year-month")
  else if !plainYearMonthValidB b then .error (.range "invalid year-month")
  else .ok (monthsBreakdown (ymDiffMonths a b))

/-- `temporal_plain_year_month_since`, at the value level. -/
def temporal_plain_year_month_since (a b : PlainYearMonth) : TRes Duration :=
  if !plainYearMonthValidB a then .error (.range "invalid year-month")
  else if !plainYearMonthValidB b then .error (.range "invalid year-month")
  else .ok (monthsBreakdown (ymDiffMonths b a))

/-- Replace an int32 component unless the INT32_MIN sentinel marks it
unchanged. -/
def pickField32 (arg original : Int) : Int :=
  if arg = int32Min then original else arg

/-- Replace a calendar identifier unless the NULL/empty sentinel marks it
unchanged. -/
def pickCal (arg original : String) : String :=
  if arg = "" then original else arg

/-- `temporal_plain_date_time_with`, at the value level.  Its nine component
parameters are `int32_t` in the header, so the "field not provided"
sentinel is INT32_MIN (a NULL / empty calendar identifier marks the
calendar unchanged).  Modelled from the spec: "with" uses the "reject"
overflow policy, so an internally inconsistent or out-of-range result
fails with RangeError rather than clamping. -/
def temporal_plain_date_time_with
    (dt : PlainDateTime)
    (year month day hour minute second millisecond microsecond nanosecond : Int)
    (calendar_id : String) : TRes PlainDateTime :=
  if !plainDateTimeValidB dt then .error (.range "invalid date-time")
  else
    let h := pickField32 hour (dt.hour : Int)
    let mi := pickField32 minute (dt.minute : Int)
    let s := pickField32 second (dt.second : Int)
    let ms := pickField32 millisecond (dt.millisecond : Int)
    let us := pickField32 microsecond (dt.microsecond : Int)
    let ns := pickField32 nanosecond (dt.nanosecond : Int)
    if 0 ≤ h ∧ 0 ≤ mi ∧ 0 ≤ s ∧ 0 ≤ ms ∧ 0 ≤ us ∧ 0 ≤ ns then
      let res : PlainDateTime :=
        ⟨pickField32 year dt.year, pickField32 month dt.month,
         pickField32 day dt.day, h.toNat, mi.toNat, s.toNat, ms.toNat,
         us.toNat, ns.toNat, pickCal calendar_id dt.calendar⟩
      if plainDateTimeValidB res then .ok res
      else .error (.range "invalid date-time field value")
    else .error (.range "invalid date-time field value")

/-- `temporal_plain_year_month_with`, at the value level.  Its component
parameters are `int32_t` in the header, so the "field not provided"
sentinel is INT32_MIN (a NULL / empty calendar identifier marks the
calendar unchanged).  Modelled from the spec: "with" uses the "reject"
overflow policy. -/
def temporal_plain_year_month_with
    (ym : PlainYearMonth) (year month : Int) (calendar_id : String) :
    TRes PlainYearMonth :=
  if !plainYearMonthValidB ym then .error (.range "invalid year-month")
  else
    let res : PlainYearMonth :=
      ⟨pickField32 year ym.year, pickField32 month ym.month,
       pickCal calendar_id ym.calendar⟩
    if plainYearMonthValidB res then .ok res
    else .error (.range "invalid year-month field value")

/-- The duration sign invariant stated by the spec: every nonzero component
has the sign of the derived `sign` field, and `sign = 0` exactly when all
ten components are 0. -/
def durSignInvariant (d : Duration) : Prop :=
  (∀ c ∈ d.components, c ≠ 0 → Int.sign c = d.sign) ∧
  (d.sign = 0 ↔ ∀ c ∈ d.components, c = 0)

/-- The continuation after a digit run: empty, or starting with a character
the predicate rejects. -/
def headFails (p : Char → Bool) (rest : List Char) : Prop :=
  ∀ y ys, rest = y :: ys → p y = false

/-! ## Helper lemmas about durations -/

theorem durAnyPos_iff (d : Duration) :
    durAnyPos d = true ↔ ∃ c ∈ d.components, 0 < c := by
  simp [durAnyPos]

theorem durAnyNeg_iff (d : Duration) :
    durAnyNeg d = true ↔ ∃ c ∈ d.components, c < 0 := by
  simp [durAnyNeg]

theorem durBounded_iff (d : Duration) :
    durBounded d = true ↔ ∀ c ∈ d.components, -maxSafe ≤ c ∧ c ≤ maxSafe := by
  simp [durBounded]

theorem durCheck_ok_iff (x d : Duration) :
    durCheck x = .ok d ↔ durValidB x = true ∧ d = x := by
  unfold durCheck durValidB
  rcases hm : durMixed x <;> rcases hb : durBounded x <;>
    simp [hm, hb, eq_comm]

theorem durMixed_false_of_valid {d : Duration} (h : durValidB d = true) :
    durMixed d = false := by
  unfold durValidB at h
  rcases hm : durMixed d
  · rfl
  · rw [hm] at h; simp at h

theorem durBounded_of_valid {d : Duration} (h : durValidB d = true) :
    durBounded d = true := by
  unfold durValidB at h
  rcases hb : durBounded d
  · rw [hb] at h; simp at h
  · rfl

theorem durSignInvariant_of_not_mixed {d : Duration} (h : durMixed d = false) :
    durSignInvariant d := by
  have hnotboth : ¬(durAnyPos d = true ∧ durAnyNeg d = true) := by
    intro ⟨hp, hn⟩
    unfold durMixed at h
    rw [hp, hn] at h
    simp at h
  constructor
  · intro c hc hne
    rcases hne.lt_or_lt with hneg | hpos
    · have hn : durAnyNeg d = true := (durAnyNeg_iff d).mpr ⟨c, hc, hneg⟩
      have hp : durAnyPos d = false := by
        rcases hp : durAnyPos d
        · rfl
        · exact absurd ⟨hp, hn⟩ hnotboth
      rw [Int.sign_eq_neg_one_iff_neg.mpr hneg]
      unfold Duration.sign
      rw [hp, hn]
      simp
    · have hp : durAnyPos d = true := (durAnyPos_iff d).mpr ⟨c, hc, hpos⟩
      rw [Int.sign_eq_one_iff_pos.mpr hpos]
      unfold Duration.sign
      rw [hp]
      simp
  · constructor
    · intro h0 c hc
      by_contra hne
      rcases Ne.lt_or_lt hne with hneg | hpos
      · have hn : durAnyNeg d = true := (durAnyNeg_iff d).mpr ⟨c, hc, hneg⟩
        unfold Duration.sign at h0
        rw [hn] at h0
        rcases hp : durAnyPos d <;> rw [hp] at h0 <;> simp at h0
      · have hp : durAnyPos d = true := (durAnyPos_iff d).mpr ⟨c, hc, hpos⟩
        unfold Duration.sign at h0
        rw [hp] at h0
        simp at h0
    · intro hall
      have hp : durAnyPos d = false := by
        rcases hp : durAnyPos d
        · rfl
        · obtain ⟨c, hc, hcpos⟩ := (durAnyPos_iff d).mp hp
          rw [hall c hc] at hcpos
          exact absurd hcpos (by simp)
      have hn : durAnyNeg d = false := by
        rcases hn : durAnyNeg d
        · rfl
        · obtain ⟨c, hc, hcneg⟩ := (durAnyNeg_iff d).mp hn
          rw [hall c hc] at hcneg
          exact absurd hcneg (by simp)
      unfold Duration.sign
      rw [hp, hn]
      simp

theorem durSignInvariant_of_valid {d : Duration} (h : durValidB d = true) :
    durSignInvariant d :=
  durSignInvariant_of_not_mixed (durMixed_false_of_valid h)

theorem durAnyPos_negate (d : Duration) : durAnyPos (durNegate d) = durAnyNeg d := by
  rw [Bool.eq_iff_iff, durAnyPos_iff, durAnyNeg_iff]
  simp [durNegate, Duration.components]

theorem durAnyNeg_negate (d : Duration) : durAnyNeg (durNegate d) = durAnyPos d := by
  rw [Bool.eq_iff_iff, durAnyNeg_iff, durAnyPos_iff]
  simp [durNegate, Duration.components]

theorem durMixed_negate (d : Duration) : durMixed (durNegate d) = durMixed d := by
  unfold durMixed
  rw [durAnyPos_negate, durAnyNeg_negate, Bool.and_comm]

theorem durBounded_negate (d : Duration) : durBounded (durNegate d) = durBounded d := by
  rw [Bool.eq_iff_iff, durBounded_iff, durBounded_iff]
  simp [durNegate, Duration.components, maxSafe]
  omega

theorem durValidB_negate {d : Duration} (h : durValidB d = true) :
    durValidB (durNegate d) = true := by
  unfold durValidB at *
  rw [durMixed_negate, durBounded_negate]
  exact h

theorem durAnyNeg_absVal (a : Duration) : durAnyNeg (durAbsVal a) = false := by
  simp [durAnyNeg, durAbsVal, Duration.components, not_lt, abs_nonneg]

theorem durMixed_absVal (a : Duration) : durMixed (durAbsVal a) = false := by
  unfold durMixed
  rw [durAnyNeg_absVal, Bool.and_false]

theorem durValidB_of_from_string {s : String} {d : Duration}
    (h : temporal_duration_from_string s = .ok d) : durValidB d = true := by
  unfold temporal_duration_from_string parseDurationChars at h
  split at h
  · exact absurd h (by simp)
  · obtain ⟨hv, rfl⟩ := (durCheck_ok_iff _ _).mp h
    exact hv

theorem durSum_cancel (d e : Duration) : durSum (durSum d e) (durNegate e) = d := by
  cases d
  cases e
  simp only [durSum, durNegate, Duration.mk.injEq]
  omega

theorem durSignInvariant_of_add {a b d : Duration}
    (h : temporal_duration_add a b = .ok d) : durSignInvariant d := by
  unfold temporal_duration_add at h
  split at h
  · exact absurd h (by simp)
  · split at h
    · exact absurd h (by simp)
    · obtain ⟨hv, rfl⟩ := (durCheck_ok_iff _ _).mp h
      exact durSignInvariant_of_valid hv

theorem isoDaysInMonth_bounds (y m : Int) :
    28 ≤ isoDaysInMonth y m ∧ isoDaysInMonth y m ≤ 31 := by
  unfold isoDaysInMonth
  repeat' split
  all_goals omega

theorem plainDateValidB_iff (d : PlainDate) :
    plainDateValidB d = true ↔
      -maxYear ≤ d.year ∧ d.year ≤ maxYear ∧ 1 ≤ d.month ∧ d.month ≤ 12 ∧
      1 ≤ d.day ∧ d.day ≤ isoDaysInMonth d.year d.month ∧
      calendarIdValid d.calendar = true := by
  simp [plainDateValidB, and_assoc]

theorem daysFromCivil_bound {y m d : Int}
    (hy1 : -maxYear ≤ y) (hy2 : y ≤ maxYear)
    (hm1 : 1 ≤ m) (hm2 : m ≤ 12) (hd1 : 1 ≤ d) (hd2 : d ≤ 31) :
    -200000000 ≤ daysFromCivil y m d ∧ daysFromCivil y m d ≤ 200000000 := by
  unfold daysFromCivil maxYear at *
  dsimp only at *
  omega

theorem durValidB_daysOnly {n : Int} (h1 : -maxSafe ≤ n) (h2 : n ≤ maxSafe) :
    durValidB ⟨0, 0, 0, n, 0, 0, 0, 0, 0, 0⟩ = true := by
  simp [durValidB, durMixed, durAnyPos, durAnyNeg, durBounded,
    Duration.components, maxSafe] at *
  omega

/-! ## Claim theorems -/

/-- **C1.** PlainDate arithmetic and field replacement diverge on a shared
fixture: adding one month to 2024-01-31 clamps the day and yields
2024-02-29 (2024 is a leap year), while replacing the month of 2023-01-31
with 2 (year, day and calendar unchanged via their sentinels) fails with a
RangeError instead of clamping. -/
theorem C1_overflow_policy_divergence :
    temporal_plain_date_add ⟨2024, 1, 31, "iso8601"⟩ ⟨0, 1, 0, 0, 0, 0, 0, 0, 0, 0⟩ =
      .ok ⟨2024, 2, 29, "iso8601"⟩ ∧
    temporal_plain_date_with ⟨2023, 1, 31, "iso8601"⟩ int32Min 2 int32Min "" =
      .error (.range "invalid date field value") := by
  constructor <;> decide

/-- **C2.** Every Duration produced by a Duration operation (construction
from components or from a string, add, subtract, negate, abs, with)
satisfies the sign invariant: every nonzero component has the sign of the
derived `sign` field, and the sign is 0 exactly when all ten components are
0.  (`temporal_duration_get_components` exposes the components of the
parsed value together with this derived sign.) -/
theorem C2_duration_sign_invariant :
    (∀ ys mos ws ds hs mis ss mss uss nss d,
        temporal_duration_from_components ys mos ws ds hs mis ss mss uss nss = .ok d →
        durSignInvariant d) ∧
    (∀ s d, temporal_duration_from_string s = .ok d → durSignInvariant d) ∧
    (∀ a b d, temporal_duration_add a b = .ok d → durSignInvariant d) ∧
    (∀ a b d, temporal_duration_subtract a b = .ok d → durSignInvariant d) ∧
    (∀ a d, temporal_duration_negated a = .ok d → durSignInvariant d) ∧
    (∀ a d, temporal_duration_abs a = .ok d → durSignInvariant d) ∧
    (∀ a ys mos ws ds hs mis ss mss uss nss d,
        temporal_duration_with a ys mos ws ds hs mis ss mss uss nss = .ok d →
        durSignInvariant d) := by
  refine ⟨?_, ?_, ?_, ?_, ?_, ?_, ?_⟩
  · intro _ _ _ _ _ _ _ _ _ _ d h
    obtain ⟨hv, rfl⟩ := (durCheck_ok_iff _ _).mp h
    exact durSignInvariant_of_valid hv
  · intro s d h
    exact durSignInvariant_of_valid (durValidB_of_from_string h)
  · intro a b d h
    exact durSignInvariant_of_add h
  · intro a b d h
    exact durSignInvariant_of_add h
  · intro a d h
    unfold temporal_duration_negated at h
    rcases hc : durCheck a with e | x <;> rw [hc] at h
    · exact absurd h (by simp [Except.map])
    · obtain ⟨hv, rfl⟩ := (durCheck_ok_iff _ _).mp hc
      simp [Except.map] at h
      rw [← h]
      exact durSignInvariant_of_not_mixed
        (by rw [durMixed_negate]; exact durMixed_false_of_valid hv)
  · intro a d h
    unfold temporal_duration_abs at h
    rcases hc : durCheck a with e | x <;> rw [hc] at h
    · exact absurd h (by simp [Except.map])
    · simp [Except.map] at h
      rw [← h]
      exact durSignInvariant_of_not_mixed (durMixed_absVal x)
  · intro a ys mos ws ds hs mis ss mss uss nss d h
    unfold temporal_duration_with at h
    split at h
    · exact absurd h (by simp)
    · obtain ⟨hv, rfl⟩ := (durCheck_ok_iff _ _).mp h
      exact durSignInvariant_of_valid hv

/-- Witness for C2: the invariant holds for the parsed value of
"P1Y2M3DT4H5M6S". -/
theorem C2_duration_sign_invariant_witness :
    durSignInvariant ⟨1, 2, 0, 3, 4, 5, 6, 0, 0, 0⟩ :=
  C2_duration_sign_invariant.2.1 "P1Y2M3DT4H5M6S" ⟨1, 2, 0, 3, 4, 5, 6, 0, 0, 0⟩
    (by decide)

/-- **C4.** `temporal_duration_compare` of two valid durations is the exact
three-way comparison (in { -1, 0, 1 }) of their total nanosecond lengths
when neither side carries a nonzero years/months/weeks component, and fails
with a TypeError indicating ambiguity without relativeTo whenever either
side carries such a calendar-unit component. -/
theorem C4_duration_compare (a b : Duration)
    (ha : durValidB a = true) (hb : durValidB b = true) :
    (durHasCalUnit a = false ∧ durHasCalUnit b = false →
       temporal_duration_compare a b = .ok (Int.sign (durTotalNs a - durTotalNs b)) ∧
       (Int.sign (durTotalNs a - durTotalNs b) = -1 ∨
        Int.sign (durTotalNs a - durTotalNs b) = 0 ∨
        Int.sign (durTotalNs a - durTotalNs b) = 1)) ∧
    (durHasCalUnit a = true ∨ durHasCalUnit b = true →
       temporal_duration_compare a b = .error
         (.type "comparing durations with years, months, or weeks is ambiguous without relativeTo")) := by
  constructor
  · intro ⟨h1, h2⟩
    constructor
    · unfold temporal_duration_compare
      simp [ha, hb, h1, h2]
    · rcases lt_trichotomy (durTotalNs a - durTotalNs b) 0 with h | h | h
      · exact Or.inl (Int.sign_eq_neg_one_iff_neg.mpr h)
      · exact Or.inr (Or.inl (by rw [h]; rfl))
      · exact Or.inr (Or.inr (Int.sign_eq_one_iff_pos.mpr h))
  · intro h
    unfold temporal_duration_compare
    rcases h with h | h <;> simp [ha, hb, h]

/-- Witness for C4: comparing one year against 400 days is a TypeError
(ambiguous without relativeTo). -/
theorem C4_duration_compare_witness :
    temporal_duration_compare ⟨1, 0, 0, 0, 0, 0, 0, 0, 0, 0⟩
        ⟨0, 0, 0, 400, 0, 0, 0, 0, 0, 0⟩ =
      .error (.type "comparing durations with years, months, or weeks is ambiguous without relativeTo") :=
  (C4_duration_compare _ _ (by decide) (by decide)).2 (Or.inl (by decide))

/-- **C6 counterexample.** The claim fails as stated: d = P1D and
e = -PT1H are valid durations and their componentwise sum (1 day, -1 hour)
is within the safe-integer bounds, yet subtract(add(d, e), e) is a
RangeError rather than d, because the sum has mixed signs and the addition
itself is rejected. -/
theorem C6_cex :
    durValidB ⟨0, 0, 0, 1, 0, 0, 0, 0, 0, 0⟩ = true ∧
    durValidB ⟨0, 0, 0, 0, -1, 0, 0, 0, 0, 0⟩ = true ∧
    durBounded (durSum ⟨0, 0, 0, 1, 0, 0, 0, 0, 0, 0⟩
      ⟨0, 0, 0, 0, -1, 0, 0, 0, 0, 0⟩) = true ∧
    ¬ ((temporal_duration_add ⟨0, 0, 0, 1, 0, 0, 0, 0, 0, 0⟩
          ⟨0, 0, 0, 0, -1, 0, 0, 0, 0, 0⟩).bind
        (fun s => temporal_duration_subtract s ⟨0, 0, 0, 0, -1, 0, 0, 0, 0, 0⟩) =
       .ok ⟨0, 0, 0, 1, 0, 0, 0, 0, 0, 0⟩) := by
  decide

/-- **C6 (amended).** Whenever adding e to d succeeds (the componentwise
sum is sign-consistent and within the safe-integer bounds), subtracting e
from the sum returns exactly d. -/
theorem C6_add_subtract_inverse (d e s : Duration)
    (h : temporal_duration_add d e = .ok s) :
    temporal_duration_subtract s e = .ok d := by
  unfold temporal_duration_add at h
  split at h
  · exact absurd h (by simp)
  next hd =>
    split at h
    · exact absurd h (by simp)
    next he =>
      obtain ⟨hs, rfl⟩ := (durCheck_ok_iff _ _).mp h
      simp only [Bool.not_eq_true', Bool.not_eq_false] at hd he
      unfold temporal_duration_subtract temporal_duration_add
      rw [hs]
      rw [durValidB_negate he]
      simp only [Bool.not_true, Bool.false_eq_true, if_false]
      rw [durSum_cancel]
      exact (durCheck_ok_iff _ _).mpr ⟨hd, rfl⟩

/-- Witness for C6 (amended) at concrete inputs. -/
theorem C6_add_subtract_inverse_witness :
    temporal_duration_subtract ⟨1, 2, 0, 3, 4, 5, 6, 0, 0, 0⟩
        ⟨0, 1, 0, 1, 0, 0, 0, 0, 0, 0⟩ =
      .ok ⟨1, 1, 0, 2, 4, 5, 6, 0, 0, 0⟩ :=
  C6_add_subtract_inverse ⟨1, 1, 0, 2, 4, 5, 6, 0, 0, 0⟩
    ⟨0, 1, 0, 1, 0, 0, 0, 0, 0, 0⟩ _ (by decide)

/-- **C7 counterexample.** The claim fails as stated: `temporal_instant_now`
is a fallible entry point (its documentation says it returns NULL on
error), yet it returns a raw string rather than a tagged result. -/
theorem C7_cex :
    ∃ e ∈ temporal_rn_entries, e.fallible = true ∧ e.ret.isTagged = false := by
  decide

/-- **C7 (amended).** Every fallible entry point of the header except
`temporal_instant_now` returns a tagged result (`TemporalResult` or
`CompareResult`, which carry either a value or a non-None error kind with a
message, never both), and every entry point with a tagged return is
fallible; `temporal_instant_now` alone signals failure through a NULL raw
string. -/
theorem C7_tagged_results :
    (temporal_rn_entries.filter
        (fun e => e.fallible && !e.ret.isTagged)).map CEntry.name =
      ["temporal_instant_now"] ∧
    temporal_rn_entries.filter (fun e => e.ret.isTagged && !e.fallible) = [] := by
  constructor <;> decide

theorem nsBreakdown_neg (x : Int) : nsBreakdown (-x) = durNegate (nsBreakdown x) := by
  unfold nsBreakdown durNegate
  simp [Int.sign_neg, Int.natAbs_neg, neg_mul]

theorem monthsBreakdown_neg (x : Int) :
    monthsBreakdown (-x) = durNegate (monthsBreakdown x) := by
  unfold monthsBreakdown durNegate
  simp [Int.sign_neg, Int.natAbs_neg, neg_mul]

/-- **C3.** For all same-kind Plain values, `since(a, b)` is the negation
of `until(a, b)`: this holds for PlainDate, PlainDateTime and
PlainYearMonth (the kinds whose until/since the header exposes), and in
particular `temporal_plain_date_since` returns exactly the duration that
`temporal_duration_negated` produces from the result of
`temporal_plain_date_until`. -/
theorem C3_since_is_negated_until :
    (∀ a b : PlainDate,
       temporal_plain_date_since a b =
         (temporal_plain_date_until a b).map durNegate) ∧
    (∀ a b du, temporal_plain_date_until a b = .ok du →
       temporal_plain_date_since a b = temporal_duration_negated du) ∧
    (∀ a b : PlainDateTime,
       temporal_plain_date_time_since a b =
         (temporal_plain_date_time_until a b).map durNegate) ∧
    (∀ a b : PlainYearMonth,
       temporal_plain_year_month_since a b =
         (temporal_plain_year_month_until a b).map durNegate) := by
  refine ⟨?_, ?_, ?_, ?_⟩
  · intro a b
    unfold temporal_plain_date_since temporal_plain_date_until
    split
    · rfl
    · split
      · rfl
      · simp only [Except.map, durNegate, Except.ok.injEq, Duration.mk.injEq]
        refine ⟨by omega, by omega, by omega, by omega, by omega, by omega,
          by omega, by omega, by omega, by omega⟩
  · intro a b du h
    unfold temporal_plain_date_until at h
    split at h
    · exact absurd h (by simp)
    next h1 =>
      split at h
      · exact absurd h (by simp)
      next h2 =>
        simp only [Except.ok.injEq] at h
        simp only [Bool.not_eq_true', Bool.not_eq_false] at h1 h2
        obtain ⟨hy1a, hy2a, hm1a, hm2a, hd1a, hd2a, hca⟩ :=
          (plainDateValidB_iff a).mp h1
        obtain ⟨hy1b, hy2b, hm1b, hm2b, hd1b, hd2b, hcb⟩ :=
          (plainDateValidB_iff b).mp h2
        have hdma := (isoDaysInMonth_bounds a.year a.month).2
        have hdmb := (isoDaysInMonth_bounds b.year b.month).2
        have hba := daysFromCivil_bound hy1a hy2a hm1a hm2a hd1a (by omega)
        have hbb := daysFromCivil_bound hy1b hy2b hm1b hm2b hd1b (by omega)
        have hval : durValidB du = true := by
          rw [← h]
          exact durValidB_daysOnly (by unfold maxSafe; omega)
            (by unfold maxSafe; omega)
        unfold temporal_plain_date_since temporal_duration_negated
        rw [h1, h2]
        rw [(durCheck_ok_iff du du).mpr ⟨hval, rfl⟩]
        simp only [Bool.not_true, Bool.false_eq_true, if_false, Except.map,
          Except.ok.injEq]
        rw [← h]
        simp only [durNegate, Duration.mk.injEq]
        refine ⟨by omega, by omega, by omega, by omega, by omega, by omega,
          by omega, by omega, by omega, by omega⟩
  · intro a b
    unfold temporal_plain_date_time_since temporal_plain_date_time_until
    split
    · rfl
    · split
      · rfl
      · have hx : dtDiffNs b a = -(dtDiffNs a b) := by
          unfold dtDiffNs
          ring
        rw [hx, nsBreakdown_neg]
        rfl
  · intro a b
    unfold temporal_plain_year_month_since temporal_plain_year_month_until
    split
    · rfl
    · split
      · rfl
      · have hx : ymDiffMonths b a = -(ymDiffMonths a b) := by
          unfold ymDiffMonths
          ring
        rw [hx, monthsBreakdown_neg]
        rfl

/-- Witness for C3: applying the until/negated-duration relation on a
concrete pair of dates. -/
theorem C3_since_is_negated_until_witness :
    temporal_plain_date_since ⟨2024, 12, 31, "iso8601"⟩ ⟨2025, 1, 1, "iso8601"⟩ =
      temporal_duration_negated ⟨0, 0, 0, 1, 0, 0, 0, 0, 0, 0⟩ :=
  C3_since_is_negated_until.2.1 ⟨2024, 12, 31, "iso8601"⟩ ⟨2025, 1, 1, "iso8601"⟩
    ⟨0, 0, 0, 1, 0, 0, 0, 0, 0, 0⟩ (by decide)

/-- **C8 counterexample.** The claim fails as stated for the Plain `with`
operations: their component parameters are declared `int32_t` in the
header, and INT64_MIN is not representable in that parameter type, so it
cannot be their "field not provided" sentinel. -/
theorem C8_cex :
    ("temporal_plain_date_with", CIntType.i32) ∈ withFieldParamTypes ∧
    ¬ CIntType.representable .i32 int64Min := by
  constructor <;> decide

theorem ite_ok_elim {α : Type} {c : Prop} [Decidable c] {x : TRes α}
    {res : α} {e : TemporalError}
    (h : (if c then x else Except.error e) = Except.ok res) :
    x = Except.ok res := by
  split at h
  · exact h
  · exact absurd h (by simp)

theorem ok_of_ite {α : Type} {c : Prop} [Decidable c] {v res : α}
    {e : TemporalError}
    (h : (if c then Except.ok v else Except.error e) = Except.ok res) :
    res = v := by
  split at h
  · simp only [Except.ok.injEq] at h
    exact h.symm
  · exact absurd h (by simp)

/-- **C8 (amended).** In `temporal_duration_with` (whose component
parameters are int64_t) INT64_MIN is the "field not provided" sentinel:
passing all sentinels returns the original duration unchanged, a
non-sentinel argument replaces exactly its component and a sentinel leaves
it at the original's value before the result is re-validated, and no
component of a successful result can ever equal the sentinel (it lies
outside the safe-integer bound).  In the Plain `with` operations
(`temporal_plain_date_with`, `temporal_plain_date_time_with`,
`temporal_plain_year_month_with`) the component parameters are int32_t and
the corresponding out-of-band sentinel is INT32_MIN (the empty / NULL
calendar string marks the calendar unchanged): for each of the three,
passing all sentinels returns the original value unchanged, and every
successful result replaces exactly the non-sentinel fields while sentinel
fields keep the original's value, before the reject-policy re-validation. -/
theorem C8_sentinel_semantics :
    (∀ orig, durValidB orig = true →
       temporal_duration_with orig int64Min int64Min int64Min int64Min int64Min
         int64Min int64Min int64Min int64Min int64Min = .ok orig) ∧
    (∀ orig ys mos ws ds hs mis ss mss uss nss d,
       temporal_duration_with orig ys mos ws ds hs mis ss mss uss nss = .ok d →
         d = ⟨pickField ys orig.years, pickField mos orig.months,
              pickField ws orig.weeks, pickField ds orig.days,
              pickField hs orig.hours, pickField mis orig.minutes,
              pickField ss orig.seconds, pickField mss orig.milliseconds,
              pickField uss orig.microseconds, pickField nss orig.nanoseconds⟩ ∧
         ∀ c ∈ d.components, c ≠ int64Min) ∧
    (∀ date, plainDateValidB date = true →
       temporal_plain_date_with date int32Min int32Min int32Min "" = .ok date) ∧
    (∀ date y m dd cal res,
       temporal_plain_date_with date y m dd cal = .ok res →
         res = ⟨pickField32 y date.year, pickField32 m date.month,
                pickField32 dd date.day, pickCal cal date.calendar⟩) ∧
    (∀ dt, plainDateTimeValidB dt = true →
       temporal_plain_date_time_with dt int32Min int32Min int32Min int32Min
         int32Min int32Min int32Min int32Min int32Min "" = .ok dt) ∧
    (∀ dt y mo dd hr mi sec ms us ns cal res,
       temporal_plain_date_time_with dt y mo dd hr mi sec ms us ns cal =
           .ok res →
         res = ⟨pickField32 y dt.year, pickField32 mo dt.month,
                pickField32 dd dt.day,
                (pickField32 hr (dt.hour : Int)).toNat,
                (pickField32 mi (dt.minute : Int)).toNat,
                (pickField32 sec (dt.second : Int)).toNat,
                (pickField32 ms (dt.millisecond : Int)).toNat,
                (pickField32 us (dt.microsecond : Int)).toNat,
                (pickField32 ns (dt.nanosecond : Int)).toNat,
                pickCal cal dt.calendar⟩) ∧
    (∀ ym, plainYearMonthValidB ym = true →
       temporal_plain_year_month_with ym int32Min int32Min "" = .ok ym) ∧
    (∀ ym y mo cal res,
       temporal_plain_year_month_with ym y mo cal = .ok res →
         res = ⟨pickField32 y ym.year, pickField32 mo ym.month,
                pickCal cal ym.calendar⟩) := by
  refine ⟨?_, ?_, ?_, ?_, ?_, ?_, ?_, ?_⟩
  · intro orig h
    obtain ⟨y, mo, w, dd, hh, mi, s, ms, us, ns⟩ := orig
    unfold temporal_duration_with
    rw [h]
    simp only [Bool.not_true, Bool.false_eq_true, if_false, pickField, if_pos rfl]
    exact (durCheck_ok_iff _ _).mpr ⟨h, rfl⟩
  · intro orig ys mos ws ds hs mis ss mss uss nss d h
    unfold temporal_duration_with at h
    split at h
    · exact absurd h (by simp)
    · obtain ⟨hv, rfl⟩ := (durCheck_ok_iff _ _).mp h
      refine ⟨rfl, ?_⟩
      intro c hc hceq
      have hb := (durBounded_iff _).mp (durBounded_of_valid hv) c hc
      rw [hceq] at hb
      unfold maxSafe int64Min at hb
      omega
  · intro date h
    obtain ⟨y, m, d, cal⟩ := date
    unfold temporal_plain_date_with
    rw [h]
    simp only [Bool.not_true, Bool.false_eq_true, if_false, if_pos rfl]
    simp [h]
  · intro date y m dd cal res h
    unfold temporal_plain_date_with at h
    split at h
    · exact absurd h (by simp)
    · dsimp only at h
      rw [ok_of_ite h]
      unfold pickField32 pickCal
      rfl
  · intro dt hv
    obtain ⟨y, mo, dd, hh, mi, s, ms, us, ns, cal⟩ := dt
    unfold temporal_plain_date_time_with
    rw [hv]
    simp only [Bool.not_true, Bool.false_eq_true, if_false]
    unfold pickField32 pickCal
    simp only [if_pos rfl]
    rw [if_pos (by
      refine ⟨?_, ?_, ?_, ?_, ?_, ?_⟩ <;> exact Int.natCast_nonneg _)]
    simp [hv]
  · intro dt y mo dd hr mi sec ms us ns cal res hok
    unfold temporal_plain_date_time_with at hok
    split at hok
    · exact absurd hok (by simp)
    · dsimp only at hok
      rw [ok_of_ite (ite_ok_elim hok)]
  · intro ym hv
    obtain ⟨y, mo, cal⟩ := ym
    unfold temporal_plain_year_month_with
    rw [hv]
    simp only [Bool.not_true, Bool.false_eq_true, if_false]
    unfold pickField32 pickCal
    simp only [if_pos rfl]
    simp [hv]
  · intro ym y mo cal res h
    unfold temporal_plain_year_month_with at h
    split at h
    · exact absurd h (by simp)
    · dsimp only at h
      rw [ok_of_ite h]

/-- Witness for C8 at concrete inputs: an all-sentinel replacement on the
duration PT2H returns PT2H, and an all-sentinel replacement on the
year-month 2024-05 returns 2024-05. -/
theorem C8_sentinel_semantics_witness :
    temporal_duration_with ⟨0, 0, 0, 0, 2, 0, 0, 0, 0, 0⟩ int64Min int64Min
      int64Min int64Min int64Min int64Min int64Min int64Min int64Min int64Min =
      .ok ⟨0, 0, 0, 0, 2, 0, 0, 0, 0, 0⟩ ∧
    temporal_plain_year_month_with ⟨2024, 5, "iso8601"⟩ int32Min int32Min "" =
      .ok ⟨2024, 5, "iso8601"⟩ :=
  ⟨C8_sentinel_semantics.1 ⟨0, 0, 0, 0, 2, 0, 0, 0, 0, 0⟩ (by decide),
   C8_sentinel_semantics.2.2.2.2.2.2.1 ⟨2024, 5, "iso8601"⟩ (by decide)⟩

/-- **C9.** `temporal_instant_add` and `temporal_instant_subtract` on a
valid duration fail with a RangeError whenever the duration carries a
nonzero years, months or weeks component, and otherwise succeed with the
exactly shifted instant (epoch nanoseconds shifted by the duration's total
time length). -/
theorem C9_instant_calendar_units (i : Int) (dur : Duration)
    (h : durValidB dur = true) :
    (durHasCalUnit dur = true →
       temporal_instant_add i dur =
         .error (.range "instants do not support year, month, or week durations") ∧
       temporal_instant_subtract i dur =
         .error (.range "instants do not support year, month, or week durations")) ∧
    (durHasCalUnit dur = false →
       temporal_instant_add i dur = .ok (i + durTotalNs dur) ∧
       temporal_instant_subtract i dur = .ok (i - durTotalNs dur)) := by
  unfold temporal_instant_add temporal_instant_subtract
  constructor <;> intro hc <;> simp [h, hc]

/-- Witness for C9: adding one year to the epoch fails, adding two hours
shifts by exactly 7.2e12 nanoseconds. -/
theorem C9_instant_calendar_units_witness :
    temporal_instant_add 0 ⟨1, 0, 0, 0, 0, 0, 0, 0, 0, 0⟩ =
      .error (.range "instants do not support year, month, or week durations") ∧
    temporal_instant_add 5 ⟨0, 0, 0, 0, 2, 0, 0, 0, 0, 0⟩ = .ok 7200000000005 := by
  constructor
  · exact ((C9_instant_calendar_units 0 ⟨1, 0, 0, 0, 0, 0, 0, 0, 0, 0⟩
      (by decide)).1 (by decide)).1
  · have h := ((C9_instant_calendar_units 5 ⟨0, 0, 0, 0, 2, 0, 0, 0, 0, 0⟩
      (by decide)).2 (by decide)).1
    rw [h]
    decide

/-- **C10 counterexample.** The claim fails as stated: the header declares
no `temporal_plain_month_day_add` entry point (PlainMonthDay exposes no
arithmetic, replacement, comparison or difference operations). -/
theorem C10_cex :
    ¬ ∃ e ∈ temporal_rn_entries, e.name = "temporal_plain_month_day_add" := by
  decide

/-- **C10 (amended).** PlainDate, PlainDateTime and PlainYearMonth each
expose add, subtract, with, compare, until and since at the engine
boundary; PlainTime exposes add, subtract and compare but no with, until
or since; PlainMonthDay exposes none of these six operations — only
construction (from_string/from_components), component extraction,
month-code/calendar accessors, and conversion to PlainDate. -/
theorem C10_engine_surfaces :
    (∀ stem ∈ ["temporal_plain_date_", "temporal_plain_date_time_",
               "temporal_plain_year_month_"],
       ∀ op ∈ ["add", "subtract", "with", "compare", "until", "since"],
         engineHasOp stem op = true) ∧
    (∀ op ∈ ["add", "subtract", "compare"],
       engineHasOp "temporal_plain_time_" op = true) ∧
    (∀ op ∈ ["with", "until", "since"],
       engineHasOp "temporal_plain_time_" op = false) ∧
    (∀ op ∈ ["add", "subtract", "with", "compare", "until", "since"],
       engineHasOp "temporal_plain_month_day_" op = false) ∧
    (∀ op ∈ ["from_string", "from_components", "get_components",
             "get_month_code", "get_calendar", "to_plain_date"],
       engineHasOp "temporal_plain_month_day_" op = true) := by
  refine ⟨?_, ?_, ?_, ?_, ?_⟩ <;> decide

/-- Witness for C10 at concrete operations. -/
theorem C10_engine_surfaces_witness :
    engineHasOp "temporal_plain_date_" "until" = true ∧
    engineHasOp "temporal_plain_month_day_" "until" = false :=
  ⟨C10_engine_surfaces.1 "temporal_plain_date_" (by decide) "until" (by decide),
   C10_engine_surfaces.2.2.2.1 "until" (by decide)⟩

/-! ## Roundtrip groundwork: digits and padding -/

theorem isDigitChar_digitChar (n : Nat) : isDigitChar (digitChar n) = true := by
  unfold digitChar
  split <;> decide

theorem digitVal_digitChar {n : Nat} (h : n < 10) : digitVal (digitChar n) = n := by
  interval_cases n <;> decide

theorem not_digit_ne {c x : Char} (hc : isDigitChar c = true)
    (hx : isDigitChar x = false) : c ≠ x := by
  intro h
  subst h
  rw [hx] at hc
  exact Bool.noConfusion hc

theorem padNat_length (w n : Nat) : (padNat w n).length = w := by
  induction w generalizing n with
  | zero => rfl
  | succ w ih => simp [padNat, ih]

theorem padNat_all_digits (w n : Nat) :
    ∀ c ∈ padNat w n, isDigitChar c = true := by
  induction w generalizing n with
  | zero => simp [padNat]
  | succ w ih =>
    intro c hc
    simp only [padNat, List.mem_append, List.mem_singleton] at hc
    rcases hc with hc | rfl
    · exact ih _ c hc
    · exact isDigitChar_digitChar _

theorem foldl_padNat (w : Nat) : ∀ n acc, n < 10 ^ w →
    (padNat w n).foldl (fun a c => a * 10 + digitVal c) acc = acc * 10 ^ w + n := by
  induction w with
  | zero =>
    intro n acc h
    simp at h
    simp [padNat, h]
  | succ w ih =>
    intro n acc h
    have h10 : n / 10 < 10 ^ w := by
      have hp : (10 : Nat) ^ (w + 1) = 10 ^ w * 10 := pow_succ 10 w
      rw [hp] at h
      omega
    rw [padNat, List.foldl_append, ih (n / 10) acc h10]
    simp only [List.foldl_cons, List.foldl_nil]
    rw [digitVal_digitChar (Nat.mod_lt n (by omega))]
    rw [pow_succ]
    have hmod := Nat.div_add_mod n 10
    calc (acc * 10 ^ w + n / 10) * 10 + n % 10
        = acc * (10 ^ w * 10) + (10 * (n / 10) + n % 10) := by ring
      _ = acc * (10 ^ w * 10) + n := by rw [hmod]

theorem natValOfDigits_padNat {w n : Nat} (h : n < 10 ^ w) :
    natValOfDigits (padNat w n) = n := by
  unfold natValOfDigits
  rw [foldl_padNat w n 0 h]
  omega

theorem parseFixedNat_padNat {w n : Nat} (h : n < 10 ^ w) (rest : List Char) :
    parseFixedNat w (padNat w n ++ rest) = some (n, rest) := by
  unfold parseFixedNat
  have hlen : (padNat w n).length = w := padNat_length w n
  have htake : (padNat w n ++ rest).take w = padNat w n := List.take_left' hlen
  have hdrop : (padNat w n ++ rest).drop w = rest := List.drop_left' hlen
  rw [htake, hdrop]
  have hall : (padNat w n).all isDigitChar = true := by
    rw [List.all_eq_true]
    intro c hc
    exact padNat_all_digits w n c hc
  rw [if_pos ⟨hlen, hall⟩, natValOfDigits_padNat h]

theorem padNat_cons (w n : Nat) :
    ∃ c cs, padNat (w + 1) n = c :: cs ∧ isDigitChar c = true := by
  rcases hc : padNat (w + 1) n with _ | ⟨c, cs⟩
  · have := padNat_length (w + 1) n
    rw [hc] at this
    simp at this
  · refine ⟨c, cs, rfl, ?_⟩
    have : c ∈ padNat (w + 1) n := by
      rw [hc]
      exact List.mem_cons_self _ _
    exact padNat_all_digits _ _ c this

/-! ## Roundtrip groundwork: takeWhile and dropWhile -/

theorem headFails_nil (p : Char → Bool) : headFails p [] := by
  intro y ys h
  exact absurd h (by simp)

theorem headFails_cons {p : Char → Bool} {y : Char} (h : p y = false)
    (ys : List Char) : headFails p (y :: ys) := by
  intro z zs hz
  cases hz
  exact h

theorem takeWhile_append_of_headFails {p : Char → Bool} {xs rest : List Char}
    (hall : ∀ c ∈ xs, p c = true) (hr : headFails p rest) :
    (xs ++ rest).takeWhile p = xs ∧ (xs ++ rest).dropWhile p = rest := by
  induction xs with
  | nil =>
    simp only [List.nil_append]
    cases rest with
    | nil => simp
    | cons y ys =>
      have hy := hr y ys rfl
      simp [List.takeWhile, List.dropWhile, hy]
  | cons x xs ih =>
    have hx := hall x (List.mem_cons_self _ _)
    have ih2 := ih (fun c hc => hall c (List.mem_cons_of_mem _ hc))
    rw [List.cons_append, List.takeWhile_cons, List.dropWhile_cons, hx]
    simp only [if_pos]
    exact ⟨by rw [ih2.1], ih2.2⟩

/-! ## Roundtrip groundwork: years and calendar annotations -/

theorem parseYear_yearChars {y : Int} (h1 : -999999 ≤ y) (h2 : y ≤ 999999)
    (rest : List Char) : parseYear (yearChars y ++ rest) = some (y, rest) := by
  unfold yearChars
  by_cases hy : 0 ≤ y ∧ y ≤ 9999
  · rw [if_pos hy]
    obtain ⟨c, cs, hcons0, hc⟩ := padNat_cons 3 y.toNat
    have hcons : padNat 4 y.toNat = c :: cs := hcons0
    rw [hcons, List.cons_append]
    simp only [parseYear]
    rw [if_neg (not_digit_ne hc (by decide) : c ≠ '+')]
    rw [if_neg (not_digit_ne hc (by decide) : c ≠ '-')]
    rw [← List.cons_append, ← hcons]
    rw [parseFixedNat_padNat (show y.toNat < 10 ^ 4 by omega)]
    simp [Int.toNat_of_nonneg hy.1]
  · rw [if_neg hy]
    by_cases hneg : y < 0
    · rw [if_pos hneg, List.cons_append]
      show (parseFixedNat 6 (padNat 6 (-y).toNat ++ rest)).map
          (fun p => (-(p.1 : Int), p.2)) = some (y, rest)
      rw [parseFixedNat_padNat (show (-y).toNat < 10 ^ 6 by omega)]
      simp only [Option.map_some']
      congr 1
      rw [Int.toNat_of_nonneg (by omega)]
      simp
    · rw [if_neg hneg, List.cons_append]
      show (parseFixedNat 6 (padNat 6 y.toNat ++ rest)).map
          (fun p => ((p.1 : Int), p.2)) = some (y, rest)
      rw [parseFixedNat_padNat (show y.toNat < 10 ^ 6 by omega)]
      simp only [Option.map_some']
      congr 1
      rw [Int.toNat_of_nonneg (by omega)]

theorem parseCalEnd_calAnn {c : String} (h : calendarIdValid c = true) :
    parseCalEnd (calAnnChars c) = some c := by
  unfold calendarIdValid at h
  simp only [Bool.and_eq_true, decide_eq_true_eq, List.all_eq_true] at h
  obtain ⟨hlen, hall⟩ := h
  unfold calAnnChars
  by_cases hc : c = "iso8601"
  · rw [if_pos hc, hc]
    rfl
  · rw [if_neg hc]
    have hsplit := takeWhile_append_of_headFails hall
      (headFails_cons (show isCalChar ']' = false by decide) [])
    have hne : c.data ≠ [] := by
      intro hnil
      have : c.length = 0 := by
        show c.data.length = 0
        rw [hnil]
        rfl
      omega
    show parseCalEnd
      ('[' :: 'u' :: '-' :: 'c' :: 'a' :: '=' :: (c.data ++ [']'])) = some c
    simp only [parseCalEnd, hsplit.1, hsplit.2, if_true]
    simp [hne]

/-! ## Roundtrip groundwork: fractions and time -/

theorem expectChar_cons (c : Char) (rest : List Char) :
    expectChar c (c :: rest) = some rest := by
  simp [expectChar]

theorem natValOfDigits_append_singleton (xs : List Char) (c : Char) :
    natValOfDigits (xs ++ [c]) = natValOfDigits xs * 10 + digitVal c := by
  unfold natValOfDigits
  rw [List.foldl_append]
  rfl

theorem natValOfDigits_append_zeros (xs : List Char) (j : Nat) :
    natValOfDigits (xs ++ List.replicate j '0') = natValOfDigits xs * 10 ^ j := by
  induction j generalizing xs with
  | zero => simp [natValOfDigits]
  | succ j ih =>
    have hsh : xs ++ List.replicate (j + 1) '0' =
        (xs ++ ['0']) ++ List.replicate j '0' := by
      simp [List.replicate_succ]
    rw [hsh, ih, natValOfDigits_append_singleton]
    have hz : digitVal '0' = 0 := rfl
    rw [hz]
    ring

theorem fracDigits_all_digits (f : Nat) :
    ∀ c ∈ fracDigits f, isDigitChar c = true := by
  unfold fracDigits
  split
  · exact padNat_all_digits 3 _
  · split
    · exact padNat_all_digits 6 _
    · exact padNat_all_digits 9 _

theorem fracDigits_ne_nil (f : Nat) : fracDigits f ≠ [] := by
  unfold fracDigits
  split
  · intro h
    have := padNat_length 3 (f / 1000000)
    rw [h] at this
    simp at this
  · split <;> intro h
    · have hl := padNat_length 6 (f / 1000)
      rw [h] at hl
      simp at hl
    · have hl := padNat_length 9 f
      rw [h] at hl
      simp at hl

theorem fracDigits_value (f : Nat) (hf : f < 1000000000) :
    natValOfDigits ((fracDigits f).take 9 ++
      List.replicate (9 - (fracDigits f).length) '0') = f := by
  have p3 : (10 : Nat) ^ 3 = 1000 := by norm_num
  have p6 : (10 : Nat) ^ 6 = 1000000 := by norm_num
  unfold fracDigits
  split
  next h6 =>
    rw [List.take_of_length_le (by rw [padNat_length]; omega), padNat_length]
    rw [natValOfDigits_append_zeros]
    rw [natValOfDigits_padNat (show f / 1000000 < 10 ^ 3 by omega)]
    rw [p6]
    omega
  · split
    next h3 =>
      rw [List.take_of_length_le (by rw [padNat_length]; omega), padNat_length]
      rw [natValOfDigits_append_zeros]
      rw [natValOfDigits_padNat (show f / 1000 < 10 ^ 6 by omega)]
      rw [p3]
      omega
    · rw [List.take_of_length_le (by rw [padNat_length]), padNat_length]
      simp only [Nat.sub_self, List.replicate_zero, List.append_nil]
      exact natValOfDigits_padNat (show f < 10 ^ 9 by omega)

theorem parseFracNs_dot (f : Nat) (hf : f < 1000000000) {rest : List Char}
    (hr : headFails isDigitChar rest) :
    parseFracNs ('.' :: (fracDigits f ++ rest)) = some (f, rest) := by
  have hsplit :=
    takeWhile_append_of_headFails (fracDigits_all_digits f) hr
  simp only [parseFracNs, if_pos rfl, hsplit.1, hsplit.2]
  rw [if_neg (fracDigits_ne_nil f)]
  rw [fracDigits_value f hf]
  simp

theorem parseFracNs_fracChars (f : Nat) (hf : f < 1000000000)
    {rest : List Char} (hr : headFails isDigitChar rest)
    (hdot : headFails (fun c => decide (c = '.')) rest) :
    parseFracNs (fracChars f ++ rest) = some (f, rest) := by
  unfold fracChars
  by_cases hz : f = 0
  · rw [if_pos hz, hz, List.nil_append]
    cases rest with
    | nil => rfl
    | cons c cs =>
      have hc := hdot c cs rfl
      simp only [decide_eq_false_iff_not] at hc
      simp [parseFracNs, hc]
  · rw [if_neg hz, List.cons_append]
    exact parseFracNs_dot f hf hr

theorem splitSubNs_decompose {ms us ns : Nat} (hus : us ≤ 999) (hns : ns ≤ 999) :
    splitSubNs (ms * 1000000 + us * 1000 + ns) = (ms, us, ns) := by
  unfold splitSubNs
  refine Prod.ext ?_ (Prod.ext ?_ ?_) <;> simp <;> omega

theorem parseTimeChars_format {t : PlainTime} (h : plainTimeValidB t = true)
    {rest : List Char} (hr : headFails isDigitChar rest)
    (hdot : headFails (fun c => decide (c = '.')) rest) :
    parseTimeChars (formatTimeChars t ++ rest) = some (t, rest) := by
  obtain ⟨hour, minute, second, ms, us, ns⟩ := t
  simp only [plainTimeValidB, Bool.and_eq_true, decide_eq_true_eq] at h
  obtain ⟨⟨⟨⟨⟨hh, hmi⟩, hs⟩, hms⟩, hus⟩, hns⟩ := h
  have hsub : subNs ⟨hour, minute, second, ms, us, ns⟩ < 1000000000 := by
    unfold subNs
    simp only
    omega
  unfold formatTimeChars parseTimeChars
  simp only [List.cons_append, List.append_assoc]
  rw [parseFixedNat_padNat (show hour < 10 ^ 2 by omega)]
  simp only [Option.some_bind]
  rw [expectChar_cons]
  simp only [Option.some_bind]
  rw [parseFixedNat_padNat (show minute < 10 ^ 2 by omega)]
  simp only [Option.some_bind]
  rw [expectChar_cons]
  simp only [Option.some_bind]
  rw [parseFixedNat_padNat (show second < 10 ^ 2 by omega)]
  simp only [Option.some_bind]
  rw [parseFracNs_fracChars _ hsub hr hdot]
  simp only [Option.map_some']
  congr 2
  unfold subNs
  simp only
  rw [show ms * 1000000 + us * 1000 + ns =
    ms * 1000000 + us * 1000 + ns from rfl]
  rw [splitSubNs_decompose hus hns]

/-! ## Roundtrip lemmas per kind -/

theorem headFails_calAnn_digit (c : String) :
    headFails isDigitChar (calAnnChars c) := by
  unfold calAnnChars
  split
  · exact headFails_nil _
  · exact headFails_cons (by decide) _

theorem headFails_calAnn_dot (c : String) :
    headFails (fun ch => decide (ch = '.')) (calAnnChars c) := by
  unfold calAnnChars
  split
  · exact headFails_nil _
  · exact headFails_cons (by decide) _

theorem parseDateChars_format {y : Int} (h1 : -999999 ≤ y) (h2 : y ≤ 999999)
    {m dd : Nat} (hm : m < 100) (hd : dd < 100) (rest : List Char) :
    parseDateChars
        (yearChars y ++ '-' :: (padNat 2 m ++ '-' :: (padNat 2 dd ++ rest))) =
      some (y, m, dd, rest) := by
  unfold parseDateChars
  rw [parseYear_yearChars h1 h2]
  simp only [Option.some_bind]
  rw [expectChar_cons]
  simp only [Option.some_bind]
  rw [parseFixedNat_padNat (show m < 10 ^ 2 by omega)]
  simp only [Option.some_bind]
  rw [expectChar_cons]
  simp only [Option.some_bind]
  rw [parseFixedNat_padNat (show dd < 10 ^ 2 by omega)]
  simp only [Option.map_some']

theorem plainDate_roundtrip {d : PlainDate} (h : plainDateValidB d = true) :
    temporal_plain_date_from_string (formatPlainDate d) = .ok d := by
  obtain ⟨y, m, dd, cal⟩ := d
  obtain ⟨hy1, hy2, hm1, hm2, hd1, hd2, hcal⟩ := (plainDateValidB_iff _).mp h
  dsimp only at hy1 hy2 hm1 hm2 hd1 hd2 hcal
  have hdm := (isoDaysInMonth_bounds y m).2
  have hmInt : ((m.toNat : Nat) : Int) = m := Int.toNat_of_nonneg (by omega)
  have hdInt : ((dd.toNat : Nat) : Int) = dd := Int.toNat_of_nonneg (by omega)
  have hraw : parseDateRaw (formatDateChars ⟨y, m, dd, cal⟩) =
      some ⟨y, m, dd, cal⟩ := by
    unfold parseDateRaw formatDateChars
    dsimp only
    rw [parseDateChars_format (by unfold maxYear at hy1; omega)
      (by unfold maxYear at hy2; omega)
      (show m.toNat < 100 by omega) (show dd.toNat < 100 by omega)]
    simp only [Option.some_bind]
    rw [parseCalEnd_calAnn hcal]
    simp only [Option.map_some']
    rw [Option.some.injEq, PlainDate.mk.injEq]
    exact ⟨rfl, hmInt, hdInt, rfl⟩
  unfold temporal_plain_date_from_string formatPlainDate
  rw [show (String.mk (formatDateChars ⟨y, m, dd, cal⟩)).data =
    formatDateChars ⟨y, m, dd, cal⟩ from rfl]
  rw [hraw]
  simp [h]

theorem plainYearMonthValidB_iff (ym : PlainYearMonth) :
    plainYearMonthValidB ym = true ↔
      -maxYear ≤ ym.year ∧ ym.year ≤ maxYear ∧ 1 ≤ ym.month ∧ ym.month ≤ 12 ∧
      calendarIdValid ym.calendar = true := by
  simp [plainYearMonthValidB, and_assoc]

theorem plainYearMonth_roundtrip {ym : PlainYearMonth}
    (h : plainYearMonthValidB ym = true) :
    temporal_plain_year_month_from_string (formatPlainYearMonth ym) = .ok ym := by
  obtain ⟨y, m, cal⟩ := ym
  obtain ⟨hy1, hy2, hm1, hm2, hcal⟩ := (plainYearMonthValidB_iff _).mp h
  dsimp only at hy1 hy2 hm1 hm2 hcal
  have hmInt : ((m.toNat : Nat) : Int) = m := Int.toNat_of_nonneg (by omega)
  have hraw : parseYearMonthRaw (formatYearMonthChars ⟨y, m, cal⟩) =
      some ⟨y, m, cal⟩ := by
    unfold parseYearMonthRaw formatYearMonthChars
    dsimp only
    rw [parseYear_yearChars (by unfold maxYear at hy1; omega)
      (by unfold maxYear at hy2; omega)]
    simp only [Option.some_bind]
    rw [expectChar_cons]
    simp only [Option.some_bind]
    rw [parseFixedNat_padNat (show m.toNat < 10 ^ 2 by omega)]
    simp only [Option.some_bind]
    rw [parseCalEnd_calAnn hcal]
    simp only [Option.map_some']
    rw [Option.some.injEq, PlainYearMonth.mk.injEq]
    exact ⟨rfl, hmInt, rfl⟩
  unfold temporal_plain_year_month_from_string formatPlainYearMonth
  rw [show (String.mk (formatYearMonthChars ⟨y, m, cal⟩)).data =
    formatYearMonthChars ⟨y, m, cal⟩ from rfl]
  rw [hraw]
  simp [h]

theorem plainMonthDayValidB_iff (md : PlainMonthDay) :
    plainMonthDayValidB md = true ↔
      1 ≤ md.month ∧ md.month ≤ 12 ∧ 1 ≤ md.day ∧
      md.day ≤ isoDaysInMonth 1972 md.month ∧
      calendarIdValid md.calendar = true := by
  simp [plainMonthDayValidB, and_assoc]

theorem plainMonthDay_roundtrip {md : PlainMonthDay}
    (h : plainMonthDayValidB md = true) :
    temporal_plain_month_day_from_string (formatPlainMonthDay md) = .ok md := by
  obtain ⟨m, dd, cal⟩ := md
  obtain ⟨hm1, hm2, hd1, hd2, hcal⟩ := (plainMonthDayValidB_iff _).mp h
  dsimp only at hm1 hm2 hd1 hd2 hcal
  have hdm := (isoDaysInMonth_bounds 1972 m).2
  have hmInt : ((m.toNat : Nat) : Int) = m := Int.toNat_of_nonneg (by omega)
  have hdInt : ((dd.toNat : Nat) : Int) = dd := Int.toNat_of_nonneg (by omega)
  have hraw : parseMonthDayRaw (formatMonthDayChars ⟨m, dd, cal⟩) =
      some ⟨m, dd, cal⟩ := by
    unfold parseMonthDayRaw formatMonthDayChars
    dsimp only
    rw [parseFixedNat_padNat (show m.toNat < 10 ^ 2 by omega)]
    simp only [Option.some_bind]
    rw [expectChar_cons]
    simp only [Option.some_bind]
    rw [parseFixedNat_padNat (show dd.toNat < 10 ^ 2 by omega)]
    simp only [Option.some_bind]
    rw [parseCalEnd_calAnn hcal]
    simp only [Option.map_some']
    rw [Option.some.injEq, PlainMonthDay.mk.injEq]
    exact ⟨hmInt, hdInt, rfl⟩
  unfold temporal_plain_month_day_from_string formatPlainMonthDay
  rw [show (String.mk (formatMonthDayChars ⟨m, dd, cal⟩)).data =
    formatMonthDayChars ⟨m, dd, cal⟩ from rfl]
  rw [hraw]
  simp [h]

theorem plainTime_roundtrip {t : PlainTime} (h : plainTimeValidB t = true) :
    temporal_plain_time_from_string (formatPlainTime t) = .ok t := by
  have hraw : parseTimeRaw (formatTimeChars t) = some t := by
    unfold parseTimeRaw
    rw [show formatTimeChars t = formatTimeChars t ++ [] by simp]
    rw [parseTimeChars_format h (headFails_nil _) (headFails_nil _)]
    simp
  unfold temporal_plain_time_from_string formatPlainTime
  rw [show (String.mk (formatTimeChars t)).data = formatTimeChars t from rfl]
  rw [hraw]
  simp [h]

theorem expectSep_T (rest : List Char) : expectSep ('T' :: rest) = some rest := by
  simp [expectSep]

theorem plainDateTime_roundtrip {dt : PlainDateTime}
    (h : plainDateTimeValidB dt = true) :
    temporal_plain_date_time_from_string (formatPlainDateTime dt) = .ok dt := by
  obtain ⟨y, m, dd, hh, mi, ss, ms, us, ns, cal⟩ := dt
  have hparts := h
  unfold plainDateTimeValidB at hparts
  rw [Bool.and_eq_true] at hparts
  obtain ⟨hdate, htime⟩ := hparts
  dsimp only [PlainDateTime.datePart, PlainDateTime.timePart] at hdate htime
  obtain ⟨hy1, hy2, hm1, hm2, hd1, hd2, hcal⟩ := (plainDateValidB_iff _).mp hdate
  dsimp only at hy1 hy2 hm1 hm2 hd1 hd2 hcal
  have hdm := (isoDaysInMonth_bounds y m).2
  have hmInt : ((m.toNat : Nat) : Int) = m := Int.toNat_of_nonneg (by omega)
  have hdInt : ((dd.toNat : Nat) : Int) = dd := Int.toNat_of_nonneg (by omega)
  have hraw : parseDateTimeRaw
      (formatDateTimeChars ⟨y, m, dd, hh, mi, ss, ms, us, ns, cal⟩) =
      some ⟨y, m, dd, hh, mi, ss, ms, us, ns, cal⟩ := by
    unfold parseDateTimeRaw parseDateTimeChars formatDateTimeChars
    dsimp only [PlainDateTime.timePart]
    rw [parseDateChars_format (by unfold maxYear at hy1; omega)
      (by unfold maxYear at hy2; omega)
      (show m.toNat < 100 by omega) (show dd.toNat < 100 by omega)]
    simp only [Option.some_bind]
    rw [expectSep_T]
    simp only [Option.some_bind]
    rw [parseTimeChars_format htime (headFails_calAnn_digit cal)
      (headFails_calAnn_dot cal)]
    simp only [Option.map_some', Option.some_bind]
    rw [parseCalEnd_calAnn hcal]
    simp only [Option.map_some']
    rw [Option.some.injEq, PlainDateTime.mk.injEq]
    exact ⟨rfl, hmInt, hdInt, rfl, rfl, rfl, rfl, rfl, rfl, rfl⟩
  unfold temporal_plain_date_time_from_string formatPlainDateTime
  rw [show (String.mk (formatDateTimeChars ⟨y, m, dd, hh, mi, ss, ms, us, ns,
    cal⟩)).data = formatDateTimeChars ⟨y, m, dd, hh, mi, ss, ms, us, ns, cal⟩
    from rfl]
  rw [hraw]
  simp [h]

theorem parseTimeChars_chunks {h mi s : Nat} (hh : h < 100) (hmi : mi < 100)
    (hs : s < 100) {F rest : List Char} {f : Nat}
    (hF : parseFracNs F = some (f, rest)) :
    parseTimeChars (padNat 2 h ++ ':' :: (padNat 2 mi ++ ':' :: (padNat 2 s ++ F))) =
      some (⟨h, mi, s, (splitSubNs f).1, (splitSubNs f).2.1,
        (splitSubNs f).2.2⟩, rest) := by
  unfold parseTimeChars
  rw [parseFixedNat_padNat (show h < 10 ^ 2 by omega)]
  simp only [Option.some_bind]
  rw [expectChar_cons]
  simp only [Option.some_bind]
  rw [parseFixedNat_padNat (show mi < 10 ^ 2 by omega)]
  simp only [Option.some_bind]
  rw [expectChar_cons]
  simp only [Option.some_bind]
  rw [parseFixedNat_padNat (show s < 10 ^ 2 by omega)]
  simp only [Option.some_bind]
  rw [hF]
  simp only [Option.map_some']

theorem instant_roundtrip {i : InstantFields} (h : instantFieldsValidB i = true) :
    temporal_instant_from_string (formatInstant i) = .ok i := by
  obtain ⟨y, m, dd, hh, mi, ss, ms, us, ns⟩ := i
  have hparts := h
  unfold instantFieldsValidB at hparts
  rw [Bool.and_eq_true] at hparts
  obtain ⟨hdate, htime⟩ := hparts
  dsimp only [InstantFields.timePart] at htime
  obtain ⟨hy1, hy2, hm1, hm2, hd1, hd2, _⟩ := (plainDateValidB_iff _).mp hdate
  dsimp only at hy1 hy2 hm1 hm2 hd1 hd2
  simp only [plainTimeValidB, Bool.and_eq_true, decide_eq_true_eq] at htime
  obtain ⟨⟨⟨⟨⟨hhh, hhmi⟩, hhs⟩, hhms⟩, hhus⟩, hhns⟩ := htime
  have hdm := (isoDaysInMonth_bounds y m).2
  have hmInt : ((m.toNat : Nat) : Int) = m := Int.toNat_of_nonneg (by omega)
  have hdInt : ((dd.toNat : Nat) : Int) = dd := Int.toNat_of_nonneg (by omega)
  have hfsub : subNs ⟨hh, mi, ss, ms, us, ns⟩ < 1000000000 := by
    unfold subNs
    dsimp only
    omega
  have hfrac : parseFracNs ('.' ::
      (fracDigits (subNs ⟨hh, mi, ss, ms, us, ns⟩) ++ ['Z'])) =
      some (subNs ⟨hh, mi, ss, ms, us, ns⟩, ['Z']) :=
    parseFracNs_dot _ hfsub (headFails_cons (by decide) _)
  have hraw : parseInstantRaw
      (formatInstantChars ⟨y, m, dd, hh, mi, ss, ms, us, ns⟩) =
      some ⟨y, m, dd, hh, mi, ss, ms, us, ns⟩ := by
    unfold parseInstantRaw parseDateTimeChars formatInstantChars
      fracCharsInstant InstantFields.timePart
    dsimp only
    simp only [List.cons_append, List.append_assoc]
    rw [parseDateChars_format (by unfold maxYear at hy1; omega)
      (by unfold maxYear at hy2; omega)
      (show m.toNat < 100 by omega) (show dd.toNat < 100 by omega)]
    simp only [Option.some_bind]
    rw [expectSep_T]
    simp only [Option.some_bind]
    rw [parseTimeChars_chunks (by omega) (by omega) (by omega) hfrac]
    simp only [Option.map_some', Option.some_bind]
    rw [if_pos (Or.inl trivial)]
    rw [Option.some.injEq, InstantFields.mk.injEq]
    rw [show subNs ⟨hh, mi, ss, ms, us, ns⟩ =
      ms * 1000000 + us * 1000 + ns from rfl]
    rw [splitSubNs_decompose hhus hhns]
    exact ⟨rfl, hmInt, hdInt, rfl, rfl, rfl, rfl, rfl, rfl⟩
  unfold temporal_instant_from_string formatInstant
  rw [show (String.mk (formatInstantChars ⟨y, m, dd, hh, mi, ss, ms, us,
    ns⟩)).data = formatInstantChars ⟨y, m, dd, hh, mi, ss, ms, us, ns⟩
    from rfl]
  rw [hraw]
  simp [h]

/-! ## Roundtrip groundwork: duration segments -/

theorem natDigits_all_digits (n : Nat) : ∀ c ∈ natDigits n, isDigitChar c = true := by
  induction n using Nat.strong_induction_on with
  | _ n ih =>
    rw [natDigits]
    split
    · intro c hc
      simp only [List.mem_singleton] at hc
      subst hc
      exact isDigitChar_digitChar _
    next h =>
      intro c hc
      simp only [List.mem_append, List.mem_singleton] at hc
      rcases hc with hc | rfl
      · exact ih (n / 10) (by omega) c hc
      · exact isDigitChar_digitChar _

theorem natDigits_ne_nil (n : Nat) : natDigits n ≠ [] := by
  rw [natDigits]
  split
  · simp
  · simp

theorem natValOfDigits_natDigits (n : Nat) : natValOfDigits (natDigits n) = n := by
  induction n using Nat.strong_induction_on with
  | _ n ih =>
    rw [natDigits]
    split
    next h =>
      show natValOfDigits [digitChar n] = n
      unfold natValOfDigits
      simp only [List.foldl_cons, List.foldl_nil]
      rw [digitVal_digitChar h]
      omega
    next h =>
      rw [natValOfDigits_append_singleton, ih (n / 10) (by omega),
        digitVal_digitChar (Nat.mod_lt n (by omega))]
      omega

theorem parseOptUnit_nil (u : Char) : parseOptUnit u [] = (none, []) := rfl

theorem parseOptUnit_nondigit {u : Char} {cs : List Char}
    (h : headFails isDigitChar cs) : parseOptUnit u cs = (none, cs) := by
  unfold parseOptUnit
  have htw : cs.takeWhile isDigitChar = [] := by
    cases cs with
    | nil => rfl
    | cons c cs' =>
      rw [List.takeWhile_cons, if_neg]
      rw [h c cs' rfl]
      simp
  rw [htw]
  simp

theorem parseOptUnit_consume {u : Char} (hu : isDigitChar u = false) (n : Nat)
    (rest : List Char) :
    parseOptUnit u (natDigits n ++ u :: rest) = (some n, rest) := by
  unfold parseOptUnit
  have hsplit := takeWhile_append_of_headFails (natDigits_all_digits n)
    (headFails_cons hu rest)
  rw [hsplit.1, hsplit.2, if_neg (natDigits_ne_nil n)]
  show (if u = u then (some (natValOfDigits (natDigits n)), rest)
    else (none, natDigits n ++ u :: rest)) = (some n, rest)
  rw [if_pos rfl, natValOfDigits_natDigits]

theorem parseOptUnit_backtrack {u v : Char} (hv : isDigitChar v = false)
    (hne : v ≠ u) (n : Nat) (rest : List Char) :
    parseOptUnit u (natDigits n ++ v :: rest) =
      (none, natDigits n ++ v :: rest) := by
  unfold parseOptUnit
  have hsplit := takeWhile_append_of_headFails (natDigits_all_digits n)
    (headFails_cons hv rest)
  rw [hsplit.1, hsplit.2, if_neg (natDigits_ne_nil n)]
  show (if v = u then (some (natValOfDigits (natDigits n)), rest)
    else (none, natDigits n ++ v :: rest)) = (none, natDigits n ++ v :: rest)
  rw [if_neg hne]

theorem parseOptUnit_renderSegs_skip {u : Char} {segs : List (Char × Nat)}
    {rest : List Char} (hu : u ∉ segs.map Prod.fst)
    (hunits : ∀ v ∈ segs.map Prod.fst, isDigitChar v = false)
    (hrest : parseOptUnit u rest = (none, rest)) :
    parseOptUnit u (renderSegs segs ++ rest) =
      (none, renderSegs segs ++ rest) := by
  induction segs with
  | nil =>
    simpa [renderSegs] using hrest
  | cons p tl ih =>
    obtain ⟨v, n⟩ := p
    simp only [List.map_cons, List.mem_cons, not_or] at hu
    have hvd : isDigitChar v = false := hunits v (by simp)
    have htl : ∀ w ∈ tl.map Prod.fst, isDigitChar w = false := by
      intro w hw
      exact hunits w (by simp [hw])
    by_cases hn : n = 0
    · simp only [renderSegs, durUnitChars, if_pos hn, List.nil_append]
      exact ih hu.2 htl
    · simp only [renderSegs, durUnitChars, if_neg hn, List.append_assoc,
        List.cons_append, List.nil_append]
      exact parseOptUnit_backtrack hvd (fun he => hu.1 he.symm) n _

theorem parseSegs_renderSegs {segs : List (Char × Nat)} {rest : List Char}
    (hnd : (segs.map Prod.fst).Nodup)
    (hunits : ∀ v ∈ segs.map Prod.fst, isDigitChar v = false)
    (hrest : ∀ u ∈ segs.map Prod.fst, parseOptUnit u rest = (none, rest)) :
    parseSegs (segs.map Prod.fst) (renderSegs segs ++ rest) =
      (segs.map (fun p => if p.2 = 0 then none else some p.2), rest) := by
  induction segs with
  | nil => simp [parseSegs, renderSegs]
  | cons p tl ih =>
    obtain ⟨u, n⟩ := p
    simp only [List.map_cons, List.nodup_cons] at hnd
    have hun : isDigitChar u = false := hunits u (by simp)
    have htl : ∀ w ∈ tl.map Prod.fst, isDigitChar w = false := by
      intro w hw
      exact hunits w (by simp [hw])
    have hrtl : ∀ w ∈ tl.map Prod.fst, parseOptUnit w rest = (none, rest) := by
      intro w hw
      exact hrest w (by simp [hw])
    by_cases hn : n = 0
    · have hskip := parseOptUnit_renderSegs_skip hnd.1 htl
        (hrest u (by simp))
      simp only [List.map_cons, renderSegs, durUnitChars, if_pos hn,
        List.nil_append, parseSegs, hskip]
      rw [ih hnd.2 htl hrtl]
    · have hcons := parseOptUnit_consume hun n (renderSegs tl ++ rest)
      simp only [List.map_cons, renderSegs, durUnitChars, if_neg hn,
        parseSegs, List.append_assoc, List.cons_append, List.nil_append, hcons]
      rw [ih hnd.2 htl hrtl]

theorem takeWhile_nil_of_headFails {p : Char → Bool} {cs : List Char}
    (h : headFails p cs) : cs.takeWhile p = [] := by
  cases cs with
  | nil => rfl
  | cons c cs' =>
    rw [List.takeWhile_cons, if_neg]
    rw [h c cs' rfl]
    simp

theorem parseSecSeg_absent {cs : List Char} (h : headFails isDigitChar cs) :
    parseSecSeg cs = some (none, cs) := by
  unfold parseSecSeg
  rw [takeWhile_nil_of_headFails h]
  simp

theorem parseSecSeg_present (s f : Nat) (hf : f < 1000000000) :
    parseSecSeg (natDigits s ++ (fracChars f ++ ['S'])) = some (some (s, f), []) := by
  unfold parseSecSeg
  have hfollow : headFails isDigitChar (fracChars f ++ ['S']) := by
    unfold fracChars
    split
    · intro y ys hy
      simp only [List.nil_append, List.cons.injEq] at hy
      rw [← hy.1]
      decide
    · exact headFails_cons (show isDigitChar '.' = false by decide) _
  have hsplit := takeWhile_append_of_headFails (natDigits_all_digits s) hfollow
  rw [hsplit.1, hsplit.2, if_neg (natDigits_ne_nil s)]
  rw [parseFracNs_fracChars f hf
    (headFails_cons (show isDigitChar 'S' = false by decide) [])
    (headFails_cons (show decide (('S' : Char) = '.') = false by decide) [])]
  show (if ('S' : Char) = 'S'
    then some (some (natValOfDigits (natDigits s), f), ([] : List Char))
    else none) = some (some (s, f), [])
  rw [if_pos rfl, natValOfDigits_natDigits]

theorem parseOptUnit_sec (u : Char) (h1 : ('S' : Char) ≠ u)
    (h2 : ('.' : Char) ≠ u) (s f : Nat) :
    parseOptUnit u (natDigits s ++ (fracChars f ++ ['S'])) =
      (none, natDigits s ++ (fracChars f ++ ['S'])) := by
  unfold fracChars
  by_cases hz : f = 0
  · rw [if_pos hz]
    simp only [List.nil_append]
    exact parseOptUnit_backtrack (by decide) h1 s []
  · rw [if_neg hz]
    simp only [List.cons_append]
    exact parseOptUnit_backtrack (by decide) h2 s _

theorem durSign_neg_nonpos {d : Duration} (hs : d.sign < 0) :
    ∀ c ∈ d.components, c ≤ 0 := by
  intro c hc
  by_contra hpos
  have hp : durAnyPos d = true := (durAnyPos_iff d).mpr ⟨c, hc, by omega⟩
  unfold Duration.sign at hs
  rw [hp] at hs
  simp at hs

theorem durValid_sign_nonneg {d : Duration} (hv : durValidB d = true)
    (hs : 0 ≤ d.sign) : ∀ c ∈ d.components, 0 ≤ c := by
  intro c hc
  by_contra hneg
  have hn : durAnyNeg d = true := (durAnyNeg_iff d).mpr ⟨c, hc, by omega⟩
  have hm := durMixed_false_of_valid hv
  unfold durMixed at hm
  have hp : durAnyPos d = false := by
    rcases hp : durAnyPos d
    · rfl
    · rw [hp, hn] at hm
      simp at hm
  unfold Duration.sign at hs
  rw [hp, hn] at hs
  simp at hs

theorem sgn_mul_natAbs {d : Duration} (hv : durValidB d = true) :
    ∀ c ∈ d.components, (if d.sign < 0 then (-1 : Int) else 1) * c.natAbs = c := by
  intro c hc
  by_cases hs : d.sign < 0
  · have hle := durSign_neg_nonpos hs c hc
    rw [if_pos hs]
    omega
  · have hge := durValid_sign_nonneg hv (by omega) c hc
    rw [if_neg hs]
    omega

theorem sgnVal_if (sgn : Int) (n : Nat) :
    sgnVal sgn (if n = 0 then none else some n) = sgn * n := by
  unfold sgnVal
  by_cases hn : n = 0
  · simp [hn]
  · simp [hn]

theorem parseSegs_date (ya ma wa da : Nat) {rest : List Char}
    (hrest : ∀ u ∈ (['Y', 'M', 'W', 'D'] : List Char),
      parseOptUnit u rest = (none, rest)) :
    parseSegs ['Y', 'M', 'W', 'D']
      (durUnitChars ya 'Y' ++ (durUnitChars ma 'M' ++ (durUnitChars wa 'W' ++
        (durUnitChars da 'D' ++ rest)))) =
      ([if ya = 0 then none else some ya, if ma = 0 then none else some ma,
        if wa = 0 then none else some wa, if da = 0 then none else some da],
       rest) := by
  have h := @parseSegs_renderSegs
    [('Y', ya), ('M', ma), ('W', wa), ('D', da)] rest
    (by
      show (['Y', 'M', 'W', 'D'] : List Char).Nodup
      decide)
    (by
      show ∀ v ∈ (['Y', 'M', 'W', 'D'] : List Char), isDigitChar v = false
      decide)
    (by
      intro u hu
      exact hrest u (by simpa using hu))
  simpa [renderSegs, List.append_assoc] using h

theorem parseSegs_time (ha mia : Nat) {rest : List Char}
    (hrest : ∀ u ∈ (['H', 'M'] : List Char),
      parseOptUnit u rest = (none, rest)) :
    parseSegs ['H', 'M']
      (durUnitChars ha 'H' ++ (durUnitChars mia 'M' ++ rest)) =
      ([if ha = 0 then none else some ha, if mia = 0 then none else some mia],
       rest) := by
  have h := @parseSegs_renderSegs [('H', ha), ('M', mia)] rest
    (by
      show (['H', 'M'] : List Char).Nodup
      decide)
    (by
      show ∀ v ∈ (['H', 'M'] : List Char), isDigitChar v = false
      decide)
    (by
      intro u hu
      exact hrest u (by simpa using hu))
  simpa [renderSegs, List.append_assoc] using h

theorem parseSecSeg_nil : parseSecSeg [] = some (none, []) := rfl



theorem durUnitChars_eq_nil_iff (n : Nat) (u : Char) :
    durUnitChars n u = [] ↔ n = 0 := by
  unfold durUnitChars
  split
  next h => simp [h]
  next h => simp [h, natDigits_ne_nil]

theorem durSecChars_eq_nil_iff (d : Duration) :
    durSecChars d = [] ↔ durSecNeeded d = false := by
  unfold durSecChars
  split
  next h => simp [h, natDigits_ne_nil]
  next h => simp [Bool.not_eq_true] at h; simp [h]

theorem durTimeChars_nil_iff (d : Duration) :
    durTimeChars d = [] ↔
      d.hours.natAbs = 0 ∧ d.minutes.natAbs = 0 ∧ durSecNeeded d = false := by
  simp [durTimeChars, List.append_eq_nil, durUnitChars_eq_nil_iff,
    durSecChars_eq_nil_iff]



theorem natAbs_triv (n : Int) : n.natAbs = 0 ↔ n = 0 := Int.natAbs_eq_zero

theorem parseDurationBody_format {d : Duration} {sgn : Int}
    (hcomp : ∀ c ∈ d.components, sgn * (c.natAbs : Int) = c)
    (hms : d.milliseconds.natAbs ≤ 999) (hus : d.microseconds.natAbs ≤ 999)
    (hns : d.nanoseconds.natAbs ≤ 999) :
    parseDurationBody sgn (formatDurationBodyChars d) = some d := by
  obtain ⟨y1, mo1, w1, d1, h1, mi1, s1, ms1, us1, ns1⟩ := d
  have hY := hcomp y1 (by simp [Duration.components])
  have hMo := hcomp mo1 (by simp [Duration.components])
  have hW := hcomp w1 (by simp [Duration.components])
  have hD := hcomp d1 (by simp [Duration.components])
  have hH := hcomp h1 (by simp [Duration.components])
  have hMi := hcomp mi1 (by simp [Duration.components])
  have hS := hcomp s1 (by simp [Duration.components])
  have hMs := hcomp ms1 (by simp [Duration.components])
  have hUs := hcomp us1 (by simp [Duration.components])
  have hNs := hcomp ns1 (by simp [Duration.components])
  dsimp only at hms hus hns
  unfold formatDurationBodyChars
  dsimp only
  by_cases hT : durTimeChars ⟨y1, mo1, w1, d1, h1, mi1, s1, ms1, us1, ns1⟩ = []
  · obtain ⟨hh0, hmi0, hsec0⟩ := (durTimeChars_nil_iff _).mp hT
    dsimp only at hh0 hmi0
    unfold durSecNeeded durSubNsAbs at hsec0
    simp [hh0, hmi0] at hsec0
    rw [if_pos hT]
    simp only [List.append_assoc]
    unfold parseDurationBody
    rw [parseSegs_date _ _ _ _ (fun u _ => parseOptUnit_nil u)]
    dsimp only
    have hds : (if y1.natAbs = 0 then (none : Option Nat) else
          some y1.natAbs).isSome = true ∨
        (if mo1.natAbs = 0 then (none : Option Nat) else
          some mo1.natAbs).isSome = true ∨
        (if w1.natAbs = 0 then (none : Option Nat) else
          some w1.natAbs).isSome = true ∨
        (if d1.natAbs = 0 then (none : Option Nat) else
          some d1.natAbs).isSome = true := by
      by_cases hy : y1.natAbs = 0
      · by_cases hmo : mo1.natAbs = 0
        · by_cases hw : w1.natAbs = 0
          · have hd4 : ¬ d1.natAbs = 0 := by
              rw [natAbs_triv] at hy hmo hw ⊢
              exact hsec0.2 hy hmo hw
            right; right; right
            simp [hd4]
          · right; right; left
            simp [hw]
        · right; left
          simp [hmo]
      · left
        simp [hy]
    rw [if_pos hds]
    simp only [Option.some.injEq, Duration.mk.injEq, sgnVal_if]
    refine ⟨hY, hMo, hW, hD, ?_, ?_, ?_, ?_, ?_, ?_⟩ <;> dsimp only at * <;> omega
  · have hskip : ∀ u ∈ (['H', 'M'] : List Char),
        parseOptUnit u (durSecChars ⟨y1, mo1, w1, d1, h1, mi1, s1, ms1, us1, ns1⟩) =
          (none, durSecChars ⟨y1, mo1, w1, d1, h1, mi1, s1, ms1, us1, ns1⟩) := by
      intro u hu
      unfold durSecChars
      by_cases hsn : durSecNeeded ⟨y1, mo1, w1, d1, h1, mi1, s1, ms1, us1, ns1⟩ = true
      · rw [if_pos hsn]
        have h1u : ('S' : Char) ≠ u := by
          simp at hu; rcases hu with rfl | rfl <;> decide
        have h2u : ('.' : Char) ≠ u := by
          simp at hu; rcases hu with rfl | rfl <;> decide
        simpa [List.append_assoc] using parseOptUnit_sec u h1u h2u _ _
      · rw [if_neg hsn]
        exact parseOptUnit_nil u
    rw [if_neg hT]
    simp only [List.append_assoc]
    unfold parseDurationBody
    rw [parseSegs_date _ _ _ _
      (fun u _ => parseOptUnit_nondigit (headFails_cons (by decide) _))]
    dsimp only
    rw [if_pos rfl]
    unfold durTimeChars
    dsimp only
    simp only [List.append_assoc]
    rw [parseSegs_time _ _ hskip]
    dsimp only
    by_cases hsn : durSecNeeded ⟨y1, mo1, w1, d1, h1, mi1, s1, ms1, us1, ns1⟩ = true
    · have hsub : durSubNsAbs ⟨y1, mo1, w1, d1, h1, mi1, s1, ms1, us1, ns1⟩ < 1000000000 := by
        unfold durSubNsAbs; dsimp only; omega
      have hsplit : splitSubNs (durSubNsAbs ⟨y1, mo1, w1, d1, h1, mi1, s1, ms1, us1, ns1⟩) =
          (ms1.natAbs, us1.natAbs, ns1.natAbs) := by
        unfold durSubNsAbs
        dsimp only
        exact splitSubNs_decompose hus hns
      unfold durSecChars
      rw [if_pos hsn]
      simp only [List.append_assoc]
      rw [parseSecSeg_present _ _ hsub]
      dsimp only
      rw [if_pos ⟨rfl, Or.inr (Or.inr rfl)⟩]
      simp only [Option.map_some', Option.getD_some]
      rw [hsplit]
      dsimp only
      simp only [Option.some.injEq, Duration.mk.injEq, sgnVal_if]
      exact ⟨hY, hMo, hW, hD, hH, hMi, hS, hMs, hUs, hNs⟩
    · have hz := hsn
      unfold durSecNeeded durSubNsAbs at hz
      simp only [Bool.or_eq_true, not_or, bne_iff_ne, ne_eq, not_not,
        Bool.and_eq_true, beq_iff_eq, not_and] at hz
      have hTm : ¬ (h1.natAbs = 0 ∧ mi1.natAbs = 0) := by
        intro hc
        exact hT ((durTimeChars_nil_iff _).mpr
          ⟨hc.1, hc.2, by simpa using hsn⟩)
      unfold durSecChars
      rw [if_neg hsn]
      rw [parseSecSeg_nil]
      dsimp only
      have hcond : ([] : List Char) = [] ∧
          ((if h1.natAbs = 0 then (none : Option Nat) else
            some h1.natAbs).isSome = true ∨
           (if mi1.natAbs = 0 then (none : Option Nat) else
            some mi1.natAbs).isSome = true ∨
           (none : Option (Nat × Nat)).isSome = true) := by
        refine ⟨rfl, ?_⟩
        by_cases hh : h1.natAbs = 0
        · have hm : ¬ mi1.natAbs = 0 := fun hm => hTm ⟨hh, hm⟩
          right; left; simp [hm]
        · left; simp [hh]
      rw [if_pos hcond]
      have h0 : splitSubNs 0 = (0, 0, 0) := rfl
      simp only [Option.map_none', Option.getD_none, h0]
      simp only [Option.some.injEq, Duration.mk.injEq, sgnVal_if]
      refine ⟨hY, hMo, hW, hD, hH, hMi, ?_, ?_, ?_, ?_⟩ <;> omega



theorem parseDurationRaw_neg (body : List Char) :
    parseDurationRaw ('-' :: 'P' :: body) = parseDurationBody (-1) body := by
  unfold parseDurationRaw parseSign
  dsimp only
  rw [if_pos rfl]
  dsimp only
  rw [if_pos rfl]

theorem parseDurationRaw_pos (body : List Char) :
    parseDurationRaw ('P' :: body) = parseDurationBody 1 body := by
  unfold parseDurationRaw parseSign
  dsimp only
  rw [if_neg (by decide), if_neg (by decide)]
  dsimp only
  rw [if_pos rfl]

theorem parseDurationRaw_format {d : Duration} (hv : durValidB d = true)
    (hms : d.milliseconds.natAbs ≤ 999) (hus : d.microseconds.natAbs ≤ 999)
    (hns : d.nanoseconds.natAbs ≤ 999) :
    parseDurationRaw (formatDurationChars d) = some d := by
  unfold formatDurationChars
  by_cases hs : d.sign < 0
  · rw [if_pos hs]
    simp only [List.cons_append, List.nil_append]
    rw [parseDurationRaw_neg]
    refine parseDurationBody_format ?_ hms hus hns
    intro c hc
    have h := sgn_mul_natAbs hv c hc
    rwa [if_pos hs] at h
  · rw [if_neg hs]
    simp only [List.nil_append]
    rw [parseDurationRaw_pos]
    refine parseDurationBody_format ?_ hms hus hns
    intro c hc
    have h := sgn_mul_natAbs hv c hc
    rwa [if_neg hs] at h

theorem duration_roundtrip (d : Duration) (hv : durValidB d = true)
    (hms : d.milliseconds.natAbs ≤ 999) (hus : d.microseconds.natAbs ≤ 999)
    (hns : d.nanoseconds.natAbs ≤ 999) :
    temporal_duration_from_string (formatDuration d) = .ok d := by
  unfold temporal_duration_from_string formatDuration
  show parseDurationChars (formatDurationChars d) = .ok d
  unfold parseDurationChars
  rw [parseDurationRaw_format hv hms hus hns]
  exact (durCheck_ok_iff _ _).mpr ⟨hv, rfl⟩



theorem digitVal_lt_of_isDigit {c : Char} (h : isDigitChar c = true) :
    digitVal c < 10 := by
  unfold isDigitChar at h
  rw [Bool.and_eq_true, decide_eq_true_eq, decide_eq_true_eq] at h
  obtain ⟨h1, h2⟩ := h
  unfold digitVal
  have g1 : ('0' : Char).toNat ≤ c.toNat := by
    exact Char.le_def.mp h1
  have g2 : c.toNat ≤ ('9' : Char).toNat := by
    exact Char.le_def.mp h2
  have e1 : ('0' : Char).toNat = 48 := rfl
  have e2 : ('9' : Char).toNat = 57 := rfl
  omega



theorem natValOfDigits_lt (ds : List Char) (h : ∀ c ∈ ds, digitVal c < 10) :
    natValOfDigits ds < 10 ^ ds.length := by
  induction ds using List.reverseRecOn with
  | nil => simp [natValOfDigits]
  | append_singleton xs c ih =>
    rw [natValOfDigits_append_singleton]
    have hc := h c (by simp)
    have hxs := ih (fun e he => h e (by simp [he]))
    simp only [List.length_append, List.length_cons, List.length_nil]
    have hp : 10 ^ (xs.length + (0 + 1)) = 10 ^ xs.length * 10 := by ring
    rw [hp]
    omega

theorem parseFracNs_lt {cs : List Char} {f : Nat} {rest : List Char}
    (h : parseFracNs cs = some (f, rest)) : f < 1000000000 := by
  unfold parseFracNs at h
  split at h
  · simp at h
    omega
  · split at h
    · dsimp only at h
      split at h
      · exact absurd h (by simp)
      · simp only [Option.some.injEq, Prod.mk.injEq] at h
        obtain ⟨hf, -⟩ := h
        subst hf
        next c rest0 hdot hds =>
        have hlen : ((rest0.takeWhile isDigitChar).take 9 ++
            List.replicate (9 - (rest0.takeWhile isDigitChar).length) '0').length =
              9 := by
          simp only [List.length_append, List.length_take, List.length_replicate]
          omega
        have hdig : ∀ e ∈ (rest0.takeWhile isDigitChar).take 9 ++
            List.replicate (9 - (rest0.takeWhile isDigitChar).length) '0',
            digitVal e < 10 := by
          intro e he
          rw [List.mem_append] at he
          rcases he with he | he
          · have hmem := List.mem_of_mem_take he
            have := List.mem_takeWhile_imp hmem
            exact digitVal_lt_of_isDigit this
          · have := List.eq_of_mem_replicate he
            subst this
            decide
        have := natValOfDigits_lt _ hdig
        rw [hlen] at this
        omega
    · simp at h
      omega



theorem parseSecSeg_frac_lt {cs : List Char} {sv f : Nat} {rest : List Char}
    (h : parseSecSeg cs = some (some (sv, f), rest)) : f < 1000000000 := by
  unfold parseSecSeg at h
  dsimp only at h
  split at h
  · simp at h
  · split at h
    · exact absurd h (by simp)
    · next f0 r2 heq =>
      split at h
      · exact absurd h (by simp)
      · split at h
        · simp only [Option.some.injEq, Prod.mk.injEq] at h
          obtain ⟨⟨-, hf⟩, -⟩ := h
          subst hf
          exact parseFracNs_lt heq
        · exact absurd h (by simp)

theorem parseSign_natAbs (cs : List Char) : (parseSign cs).1.natAbs = 1 := by
  cases cs with
  | nil => rfl
  | cons c rest =>
    unfold parseSign
    dsimp only
    by_cases h1 : c = '-'
    · rw [if_pos h1]; rfl
    · rw [if_neg h1]
      by_cases h2 : c = '+'
      · rw [if_pos h2]; rfl
      · rw [if_neg h2]; rfl

theorem parseDurationBody_sub_bounds {sgn : Int} {cs : List Char} {d : Duration}
    (hsgn : sgn.natAbs = 1) (h : parseDurationBody sgn cs = some d) :
    d.milliseconds.natAbs ≤ 999 ∧ d.microseconds.natAbs ≤ 999 ∧
      d.nanoseconds.natAbs ≤ 999 := by
  unfold parseDurationBody at h
  split at h
  · dsimp only at h
    split at h
    · split at h
      · simp only [Option.some.injEq] at h
        subst h
        simp
      · exact absurd h (by simp)
    · split at h
      · split at h
        · split at h
          · exact absurd h (by simp)
          · next osec r4 hsec =>
            split at h
            · have hf : ((osec.map Prod.snd).getD 0) < 1000000000 := by
                cases osec with
                | none => decide
                | some p =>
                  obtain ⟨sv, f0⟩ := p
                  simp only [Option.map_some', Option.getD_some]
                  exact parseSecSeg_frac_lt hsec
              have hsplit : splitSubNs ((osec.map Prod.snd).getD 0) =
                  (((osec.map Prod.snd).getD 0) / 1000000,
                   ((osec.map Prod.snd).getD 0) / 1000 % 1000,
                   ((osec.map Prod.snd).getD 0) % 1000) := rfl
              rw [hsplit] at h
              dsimp only at h
              simp only [Option.some.injEq] at h
              subst h
              refine ⟨?_, ?_, ?_⟩ <;>
                simp only [Int.natAbs_mul, hsgn, Int.natAbs_ofNat, one_mul] <;>
                omega
            · exact absurd h (by simp)
        · exact absurd h (by simp)
      · exact absurd h (by simp)
  · exact absurd h (by simp)

theorem from_string_sub_bounds {s : String} {d : Duration}
    (h : temporal_duration_from_string s = .ok d) :
    d.milliseconds.natAbs ≤ 999 ∧ d.microseconds.natAbs ≤ 999 ∧
      d.nanoseconds.natAbs ≤ 999 := by
  unfold temporal_duration_from_string parseDurationChars at h
  split at h
  · exact absurd h (by simp)
  · next d0 hraw =>
    obtain ⟨-, rfl⟩ := (durCheck_ok_iff _ _).mp h
    unfold parseDurationRaw at hraw
    split at hraw
    next sgn rest0 heq =>
    split at hraw
    · exact absurd hraw (by simp)
    · next c cs1 =>
      split at hraw
      · refine parseDurationBody_sub_bounds ?_ hraw
        have := parseSign_natAbs s.data
        rw [heq] at this
        exact this
      · exact absurd hraw (by simp)

theorem plainDateValid_of_from_string {s : String} {d : PlainDate}
    (h : temporal_plain_date_from_string s = .ok d) :
    plainDateValidB d = true := by
  unfold temporal_plain_date_from_string at h
  split at h
  · exact absurd h (by simp)
  · split at h
    · next hv =>
      simp only [Except.ok.injEq] at h
      subst h
      exact hv
    · exact absurd h (by simp)

theorem plainTimeValid_of_from_string {s : String} {t : PlainTime}
    (h : temporal_plain_time_from_string s = .ok t) :
    plainTimeValidB t = true := by
  unfold temporal_plain_time_from_string at h
  split at h
  · exact absurd h (by simp)
  · split at h
    · next hv =>
      simp only [Except.ok.injEq] at h
      subst h
      exact hv
    · exact absurd h (by simp)

theorem plainDateTimeValid_of_from_string {s : String} {dt : PlainDateTime}
    (h : temporal_plain_date_time_from_string s = .ok dt) :
    plainDateTimeValidB dt = true := by
  unfold temporal_plain_date_time_from_string at h
  split at h
  · exact absurd h (by simp)
  · split at h
    · next hv =>
      simp only [Except.ok.injEq] at h
      subst h
      exact hv
    · exact absurd h (by simp)

theorem plainYearMonthValid_of_from_string {s : String} {ym : PlainYearMonth}
    (h : temporal_plain_year_month_from_string s = .ok ym) :
    plainYearMonthValidB ym = true := by
  unfold temporal_plain_year_month_from_string at h
  split at h
  · exact absurd h (by simp)
  · split at h
    · next hv =>
      simp only [Except.ok.injEq] at h
      subst h
      exact hv
    · exact absurd h (by simp)

theorem plainMonthDayValid_of_from_string {s : String} {md : PlainMonthDay}
    (h : temporal_plain_month_day_from_string s = .ok md) :
    plainMonthDayValidB md = true := by
  unfold temporal_plain_month_day_from_string at h
  split at h
  · exact absurd h (by simp)
  · split at h
    · next hv =>
      simp only [Except.ok.injEq] at h
      subst h
      exact hv
    · exact absurd h (by simp)

theorem instantFieldsValid_of_from_string {s : String} {i : InstantFields}
    (h : temporal_instant_from_string s = .ok i) :
    instantFieldsValidB i = true := by
  unfold temporal_instant_from_string at h
  split at h
  · exact absurd h (by simp)
  · split at h
    · next hv =>
      simp only [Except.ok.injEq] at h
      subst h
      exact hv
    · exact absurd h (by simp)

/-- C5: for every supported value kind (PlainDate, PlainTime, PlainDateTime,
PlainYearMonth, PlainMonthDay, Instant, Duration), whenever a string parses
successfully via the kind's `from_string` entry point, re-parsing the
canonical formatted output of the parsed value returns exactly the same
value.  The canonical normalized ISO 8601 form of a valid input is, in this
model, the formatter applied to the parsed value, so `format (parse text)`
is the canonical form of `text` by definition and re-parsing it is the
identity. -/
theorem C5_reparse_identity :
    (∀ (s : String) (d : PlainDate),
      temporal_plain_date_from_string s = .ok d →
      temporal_plain_date_from_string (formatPlainDate d) = .ok d) ∧
    (∀ (s : String) (t : PlainTime),
      temporal_plain_time_from_string s = .ok t →
      temporal_plain_time_from_string (formatPlainTime t) = .ok t) ∧
    (∀ (s : String) (dt : PlainDateTime),
      temporal_plain_date_time_from_string s = .ok dt →
      temporal_plain_date_time_from_string (formatPlainDateTime dt) = .ok dt) ∧
    (∀ (s : String) (ym : PlainYearMonth),
      temporal_plain_year_month_from_string s = .ok ym →
      temporal_plain_year_month_from_string (formatPlainYearMonth ym) = .ok ym) ∧
    (∀ (s : String) (md : PlainMonthDay),
      temporal_plain_month_day_from_string s = .ok md →
      temporal_plain_month_day_from_string (formatPlainMonthDay md) = .ok md) ∧
    (∀ (s : String) (i : InstantFields),
      temporal_instant_from_string s = .ok i →
      temporal_instant_from_string (formatInstant i) = .ok i) ∧
    (∀ (s : String) (d : Duration),
      temporal_duration_from_string s = .ok d →
      temporal_duration_from_string (formatDuration d) = .ok d) := by
  refine ⟨?_, ?_, ?_, ?_, ?_, ?_, ?_⟩
  · intro s d h
    exact plainDate_roundtrip (plainDateValid_of_from_string h)
  · intro s t h
    exact plainTime_roundtrip (plainTimeValid_of_from_string h)
  · intro s dt h
    exact plainDateTime_roundtrip (plainDateTimeValid_of_from_string h)
  · intro s ym h
    exact plainYearMonth_roundtrip (plainYearMonthValid_of_from_string h)
  · intro s md h
    exact plainMonthDay_roundtrip (plainMonthDayValid_of_from_string h)
  · intro s i h
    exact instant_roundtrip (instantFieldsValid_of_from_string h)
  · intro s d h
    obtain ⟨hms, hus, hns⟩ := from_string_sub_bounds h
    exact duration_roundtrip d (durValidB_of_from_string h) hms hus hns

theorem C5_reparse_identity_witness :
    temporal_plain_date_from_string
        (String.mk ['2', '0', '2', '4', '-', '0', '2', '-', '2', '9']) =
      .ok ⟨2024, 2, 29, "iso8601"⟩ ∧
    temporal_plain_date_from_string (formatPlainDate ⟨2024, 2, 29, "iso8601"⟩) =
      .ok ⟨2024, 2, 29, "iso8601"⟩ :=
  ⟨by decide,
   C5_reparse_identity.1
     (String.mk ['2', '0', '2', '4', '-', '0', '2', '-', '2', '9'])
     ⟨2024, 2, 29, "iso8601"⟩ (by decide)⟩

end Temporal
